import Mathlib

/-!
# Verification of the Onigmo/Scintilla regex adapter (OnigmoRegExEngine.cxx)

Shallow embedding of the adapter layer in `src/_scionigmo/OnigmoRegExEngine.cxx`:
pattern translation (`translateRegExpr`), the find/replace driver (`FindText`,
`SubstituteByPosition`), the replacement-template expander (`convertReplExpr`),
and the single-slot compiled-pattern cache.

Strings are embedded as `List Char` (the adapter works on single-byte text,
`ONIG_ENCODING_ASCII`).  The Onigmo engine itself (`onig_new`, `onig_search`)
is not part of `src/`; where a claim depends on it, it is modelled from the
spec and marked as such in the corresponding doc comment.
-/

set_option maxRecDepth 10000

/-! ## replaceAll (OnigmoRegExEngine.cxx lines 175-192)

The C++ helper scans `source` left to right with `std::string::find`, appends
the text before each occurrence of `from`, then `to`, and resumes after the
occurrence.  For a nonempty `from` this is exactly a leftmost, non-overlapping
scan: at each position, if `from` is a prefix, emit `to` and skip
`from.length` characters, otherwise copy one character.  `replaceAllAux`
implements that scan; the `skip` counter counts source characters still to be
consumed by the occurrence just replaced (keeping the recursion structural).
The C++ function diverges for empty `from`; all call sites pass nonempty
`from`, and the embedding copies the source unchanged in that (unused) case. -/

def replaceAllAux (f t : List Char) : Nat → List Char → List Char
  | _, [] => []
  | skip+1, _ :: rest => replaceAllAux f t skip rest
  | 0, c :: rest =>
    if f.isPrefixOf (c :: rest) ∧ 1 ≤ f.length then
      t ++ replaceAllAux f t (f.length - 1) rest
    else
      c :: replaceAllAux f t 0 rest

def replaceAll (source f t : List Char) : List Char :=
  replaceAllAux f t 0 source

/-! ## translateRegExpr (OnigmoRegExEngine.cxx lines 430-480)

Engine options.  The adapter manipulates an `OnigOptionType` bitmask with
`ONIG_OPTION_ON` / `ONIG_OPTION_OFF`; the bits it touches are distinct, so the
mask is embedded as a structure of named booleans (one per bit used). -/

structure OnigOptions where
  extend : Bool := false
  dotall : Bool := false
  negateSingleline : Bool := false
  captureGroup : Bool := false
  ignorecase : Bool := false
  notbol : Bool := false
  noteol : Bool := false
  newlineCrlf : Bool := false
deriving DecidableEq, Repr

/-- The `ONIG_OPTION_DEFAULT` options value: no option bits set. -/
def onigOptionDefault : OnigOptions := {}

/-- Scintilla end-of-line mode constants (Scintilla.h). -/
def SC_EOL_CRLF : Nat := 0

def SC_EOL_CR : Nat := 1

def SC_EOL_LF : Nat := 2

/-- The raw string `R"((?<!\w)(?=\w))"`: the word-begin assertion the adapter substitutes
for the unsupported `\<` shorthand (line 449). -/
def wordBeginRepl : List Char := "(?<!\\w)(?=\\w)".toList

/-- The raw string `R"(\(?<!\w)(?=\w))"`: an escaped word-begin expansion (line 450). -/
def escWordBegin : List Char := "\\(?<!\\w)(?=\\w)".toList

/-- The raw string `R"((?<=\w)(?!\w))"`: the word-end assertion substituted for `\>` (line 451). -/
def wordEndRepl : List Char := "(?<=\\w)(?!\\w)".toList

/-- The raw string `R"(\(?<=\w)(?!\w))"`: an escaped word-end expansion (line 452). -/
def escWordEnd : List Char := "\\(?<=\\w)(?!\\w)".toList

/-- The raw string `R"((?=\r))"`: the carriage-return lookahead substituted for `$` in
`SC_EOL_CR` mode (line 469). -/
def crLookahead : List Char := "(?=\\r)".toList

/-- The raw string `R"(\(?=\r))"`: an escaped carriage-return lookahead (line 470). -/
def escCrLookahead : List Char := "\\(?=\\r)".toList

/-- Embeds `OniguRegExEngine::translateRegExpr` (lines 430-480).  Takes the
raw pattern, the whole-word / word-start flags, the document EOL mode and the
engine options accumulated so far; returns the engine-ready pattern text and
the adjusted options. -/
def translateRegExpr (regExprStr : List Char) (wholeWord wordStart : Bool)
    (eolMode : Nat) (rxOptions : OnigOptions) : List Char × OnigOptions :=
  -- lines 434-446: whole-word / word-start wrapping and dot rewriting
  let tmpStr :=
    if wholeWord || wordStart then
      let t := ['\\', 'b'] ++ regExprStr ++ (if wholeWord then ['\\', 'b'] else [])
      replaceAll t ['.'] ['\\', 'w']
    else
      regExprStr
  -- lines 448-452: Onigmo-unsupported word boundary shorthand
  let tmpStr := replaceAll tmpStr ['\\', '<'] wordBeginRepl
  let tmpStr := replaceAll tmpStr escWordBegin ('\\' :: '\\' :: '<' :: [])
  let tmpStr := replaceAll tmpStr ['\\', '>'] wordEndRepl
  let tmpStr := replaceAll tmpStr escWordEnd ('\\' :: '\\' :: '>' :: [])
  -- lines 461-476: EOL modes
  if eolMode = SC_EOL_LF then
    (tmpStr, { rxOptions with newlineCrlf := false })
  else if eolMode = SC_EOL_CR then
    let tmpStr := replaceAll tmpStr ['$'] crLookahead
    let tmpStr := replaceAll tmpStr escCrLookahead ['\\', '$']
    (tmpStr, { rxOptions with newlineCrlf := false })
  else if eolMode = SC_EOL_CRLF then
    (tmpStr, { rxOptions with newlineCrlf := true })
  else
    (tmpStr, rxOptions)

/-! ## The engine search primitive, modelled from the spec

`onig_search` belongs to the Onigmo engine, which is code of this repository
but not under `src/` (the adapter treats it as a black box).  `searchLit` is
modelled from the spec for a literal (meta-character-free, case-sensitive)
compiled pattern: spec section 4.3 -- "run one engine search over `[lo, hi)`
anchored to the whole-document bounds", and section 6 --
`search(handle, bufferStart, bufferEnd, searchStart, searchEnd, ...) ->
offset | NO_MATCH_SENTINEL`.  It returns the least offset `o` with
`start <= o < range` at which the pattern occurs and whose match fits inside
the document, together with the match length (`region.end[0] - result`). -/

/-- Does the literal pattern `pat` occur in `doc` at offset `o`, fitting
inside the document bounds? -/
def matchAt (doc pat : List Char) (o : Nat) : Bool :=
  decide (o + pat.length ≤ doc.length) && ((doc.drop o).take pat.length == pat)

/-- Scan offsets `start, start+1, ...` (at most `fuel` of them) for the first
literal match. -/
def searchLitAux (doc pat : List Char) : Nat → Nat → Option (Nat × Nat)
  | 0, _ => none
  | fuel+1, start =>
    if matchAt doc pat start then some (start, pat.length)
    else searchLitAux doc pat fuel (start + 1)

/-- Modelled from the spec: the engine's forward-search primitive for a
literal pattern.  Match start offsets range over `[start, range)`; the match
itself may extend up to the document end. -/
def searchLit (doc pat : List Char) (start range : Nat) : Option (Nat × Nat) :=
  searchLitAux doc pat (range - start) start

/-! ## The backward scan loop (OnigmoRegExEngine.cxx lines 298-316)

The `findprevious` branch of `FindText` repeats the forward search, advancing
the lower bound past each hit, and reports the last hit.  The loop is embedded
with explicit fuel (the C++ `while` loop); `none` marks fuel exhaustion, which
claim C7's theorem shows is unreachable for the fuel `FindText` supplies.
`search b` stands for `onig_search` with lower bound `b` and the fixed upper
bound; `result`/`b`/`last` are the C++ `result`, `rangeBegPtr` (as an offset)
and the recorded `(m_MatchPos, m_MatchLen)`. -/

def backScanAux (search : Nat → Option (Nat × Nat)) (rEnd : Nat) :
    Nat → Option (Nat × Nat) → Nat → Option (Nat × Nat) → Option (Option (Nat × Nat))
  | 0, _, _, _ => none
  | fuel+1, result, b, last =>
    match result with
    | none => some last
    | some (p, l) =>
      if b ≤ rEnd then
        let b' := p + max 1 l
        backScanAux search rEnd fuel (search b') b' (some (p, l))
      else
        some last

/-! ## FindText (OnigmoRegExEngine.cxx lines 201-326) -/

/-- The `ONIG_MISMATCH` sentinel. -/
def ONIG_MISMATCH : Int := -1

/-- Modelled from the spec: the flag bit of the search request that asks for
dot-matches-newline (`SCFIND_DOT_MATCH_ALL`, from the external Scintilla
header).  The exact bit value is not claim-relevant. -/
def SCFIND_DOT_MATCH_ALL : Nat := 16777216

/-- The engine's per-match output region: `(beg, end)` offsets per group;
`num_regs` is the list length. -/
structure OnigRegion where
  regs : List (Nat × Nat)
deriving DecidableEq, Repr

/-- The instance state of `OniguRegExEngine`: the cached translated pattern
text and compile options, the compiled-pattern handle (modelled as the text it
was compiled from; `none` is a null `m_RegExpr`), the match region, the engine
diagnostic buffer and the recorded last match. -/
structure RegexInst where
  regExprStrg : List Char
  cmplOptions : OnigOptions
  regExpr : Option (List Char)
  region : OnigRegion
  errorInfo : List Char
  matchPos : Int
  matchLen : Int
deriving DecidableEq, Repr

/-- The freshly constructed engine instance (constructor, lines 73-85):
empty cached pattern, default options, null handle, empty region,
`m_MatchPos = ONIG_MISMATCH`, `m_MatchLen = 0`. -/
def initInst : RegexInst :=
  { regExprStrg := [], cmplOptions := onigOptionDefault, regExpr := none,
    region := ⟨[]⟩, errorInfo := [], matchPos := ONIG_MISMATCH, matchLen := 0 }

/-- The search phase of `FindText` (lines 285-321): the recorded hit, if any.
Forward mode is one engine search (lines 317-321); backward mode
(`findprev`) is the last-occurrence loop (lines 298-316), run with enough
fuel for its strictly increasing lower bound to cross `rangeEnd`. -/
def findHit (doc cpat : List Char) (rangeBeg rangeEnd : Nat) (findprev : Prop)
    [Decidable findprev] : Option (Nat × Nat) :=
  let result := searchLit doc cpat rangeBeg rangeEnd
  if findprev then
    match backScanAux (fun b => searchLit doc cpat b rangeEnd) rangeEnd
        (rangeEnd + 2) result rangeBeg none with
    | some (some (p, l)) => some (p, l)
    | _ => none
  else
    match result with
    | some (p, l) => if rangeBeg ≤ rangeEnd then some (p, l) else none
    | none => none

/-- Embeds `OniguRegExEngine::FindText` (lines 201-326), instantiated with the
spec-modelled literal engine:

* the document is a `List Char`; `doc->Length()` is its length and
  `doc->MovePositionOutsideChar` is the identity (single-byte encoding;
  spec section 4.3 step 1: "idempotent, no-op for single-byte encodings");
* `onig_new` is modelled as always succeeding for the literal engine (the
  engine is assumed correct; compile failure is treated separately by
  `recompileStep` below, parametrised over the compiler);
* `onig_search` is the spec-modelled `searchLit`.

The `pattern` argument is `none` for a null `const char*`.  Returns the new
instance state, the return value (`Cast2long(m_MatchPos)`, `-1` not found) and
the output `*length` (`m_MatchLen`). -/
def findText (st : RegexInst) (doc : List Char) (minPos maxPos : Nat)
    (pattern : Option (List Char)) (caseSensitive word wordStart : Bool)
    (searchFlags : Nat) (eolMode : Nat) : RegexInst × Int × Int :=
  match pattern with
  | none => (st, -1, 0)
  | some pat =>
    if pat.length = 0 then (st, -1, 0)
    else
      let docLen := doc.length
      let findprevious := minPos > maxPos
      let rangeBeg := if minPos > maxPos then maxPos else minPos
      let rangeEnd := if minPos > maxPos then minPos else maxPos
      -- lines 224-244: fixed and dynamic engine options
      let onigmoOptions : OnigOptions :=
        { extend := false,
          dotall := decide (searchFlags.land SCFIND_DOT_MATCH_ALL ≠ 0),
          negateSingleline := true,
          captureGroup := true,
          ignorecase := !caseSensitive,
          notbol := decide (rangeBeg ≠ 0),
          noteol := decide (rangeEnd ≠ docLen) }
      let tr := translateRegExpr pat word wordStart eolMode onigmoOptions
      let sRegExprStrg := tr.1
      let onigmoOptions := tr.2
      -- lines 248-273: single-slot cache; the literal engine compiles any
      -- pattern, so the failure path (-2) is not taken here
      let bReCompile : Bool :=
        st.regExpr.isNone || decide (st.cmplOptions ≠ onigmoOptions)
          || decide (st.regExprStrg ≠ sRegExprStrg)
      let st1 :=
        if bReCompile then
          { st with regExprStrg := sRegExprStrg, cmplOptions := onigmoOptions,
                    errorInfo := [], region := ⟨[]⟩, regExpr := some sRegExprStrg }
        else st
      -- lines 275-276
      let st2 := { st1 with matchPos := ONIG_MISMATCH, matchLen := 0 }
      let handle := st2.regExpr.getD []
      -- lines 285-321: the search phase, forward or backward
      let st3 :=
        match findHit doc handle rangeBeg rangeEnd findprevious with
        | some (p, l) =>
          { st2 with matchPos := (p : Int), matchLen := (l : Int),
                     region := ⟨[(p, p + l)]⟩ }
        | none => st2
      -- lines 323-325
      (st3, st3.matchPos, st3.matchLen)

/-! ## convertReplExpr (OnigmoRegExEngine.cxx lines 485-585)

The C++ loop indexes `replStr` with `size_t i` that is incremented inside
the loop body; every read `replStr[i]` happens at `i <= length`, and
`std::string::operator[]` at index `length` returns the null character
(C++11), embedded here as `charAtIdx` with default `'\x00'`.  The loop is
embedded index-based with explicit fuel (each iteration advances `i` by at
least one, so `length + 1` fuel always suffices). -/

/-- Reading `replStr[i]` on a `std::string`: the character at `i`, or the null
terminator at `i = length`. -/
def charAtIdx (s : List Char) (i : Nat) : Char := s.getD i (Char.ofNat 0)

/-- Embeds `GetHexDigit` (lines 159-171). -/
def GetHexDigit (ch : Char) : Int :=
  if '0' ≤ ch ∧ ch ≤ '9' then (ch.toNat : Int) - ('0'.toNat : Int)
  else if 'A' ≤ ch ∧ ch ≤ 'F' then (ch.toNat : Int) - ('A'.toNat : Int) + 10
  else if 'a' ≤ ch ∧ ch ≤ 'f' then (ch.toNat : Int) - ('a'.toNat : Int) + 10
  else -1

/-- Modelled from the spec: `WideCharToMultiByte(CP_UTF8, ...)` of a single
16-bit unit followed by pushing bytes up to the NUL terminator (lines
558-564), i.e. the UTF-8 encoding of the code point (spec 4.4: "decode a code
point and append its encoded byte form").  Bytes are represented as chars. -/
def utf8Bytes (v : Nat) : List Char :=
  if v < 128 then [Char.ofNat v]
  else if v < 2048 then [Char.ofNat (192 + v / 64), Char.ofNat (128 + v % 64)]
  else [Char.ofNat (224 + v / 4096), Char.ofNat (128 + v / 64 % 64),
        Char.ofNat (128 + v % 64)]

/-- The `case 'x': case 'u':` hex scanner (lines 524-571).  Entered with `i2`
just past the `x`/`u`; consumes up to 2 (`shortForm`) or 4 hex digits, with
`++i` after each accepted digit exactly as in the C++.  Returns the decoded
value and the final value of `i` (the for-loop then does one more `++i`,
skipping the character at that position). -/
def hexScan (s : List Char) (i2 : Nat) (shortForm : Bool) : Nat × Nat :=
  let h1 := GetHexDigit (charAtIdx s i2)
  if h1 ≥ 0 then
    let i3 := i2 + 1
    let v1 := h1.toNat
    let h2 := GetHexDigit (charAtIdx s i3)
    if h2 ≥ 0 then
      let i4 := i3 + 1
      let v2 := v1 * 16 + h2.toNat
      if shortForm then (v2, i4)
      else
        let h3 := GetHexDigit (charAtIdx s i4)
        if h3 ≥ 0 then
          let i5 := i4 + 1
          let v3 := v2 * 16 + h3.toNat
          let h4 := GetHexDigit (charAtIdx s i5)
          if h4 ≥ 0 then (v3 * 16 + h4.toNat, i5 + 1)
          else (v3, i5)
        else (v2, i4)
    else (v1, i3)
  else (0, i2)     -- no hex digit: val stays 0, i unchanged

/-- One-character escape results of the `switch` (lines 497-523, 573-575),
for the cases that do not scan hex digits. -/
def escChar (ch : Char) : List Char :=
  if ch = 'a' then [Char.ofNat 7]
  else if ch = 'b' then [Char.ofNat 8]
  else if ch = 'f' then [Char.ofNat 12]
  else if ch = 'n' then [Char.ofNat 10]
  else if ch = 'r' then [Char.ofNat 13]
  else if ch = 't' then [Char.ofNat 9]
  else if ch = 'v' then [Char.ofNat 11]
  else if ch = '\\' then ['\\', '\\']     -- preserve escaped backslash
  else [ch]                               -- unknown ctrl seq: the bare char

/-- The body of `convertReplExpr`'s `for` loop (lines 488-581), index-based
with fuel.  At index `i`: a non-backslash character is copied; a backslash
reads the next character (`replStr[++i]`, the null terminator when the
backslash is last), prepends `$` for digits 1-9 (the legacy backreference
rewrite), then dispatches on the escape character. -/
def convertLoop (s : List Char) : Nat → Nat → List Char
  | 0, _ => []
  | fuel+1, i =>
    if i < s.length then
      let ch := charAtIdx s i
      if ch = '\\' then
        let i1 := i + 1
        let ch1 := charAtIdx s i1
        let pre : List Char := if '1' ≤ ch1 ∧ ch1 ≤ '9' then ['$'] else []
        if ch1 = 'x' ∨ ch1 = 'u' then
          let scan := hexScan s (i1 + 1) (ch1 = 'x')
          let emitted := if scan.1 ≠ 0 then utf8Bytes scan.1 else [ch1]
          pre ++ emitted ++ convertLoop s fuel (scan.2 + 1)
        else
          pre ++ escChar ch1 ++ convertLoop s fuel (i1 + 1)
      else
        ch :: convertLoop s fuel (i + 1)
    else []

/-- Embeds `OniguRegExEngine::convertReplExpr` (lines 485-585). -/
def convertReplExpr (replStr : List Char) : List Char :=
  convertLoop replStr (replStr.length + 1) 0

/-! ## SubstituteByPosition (OnigmoRegExEngine.cxx lines 330-376) -/

/-- The backreference-resolving walk of lines 344-371 over the expanded
template.  `region` is `m_Region`; group text is pulled live from `doc`
(`doc->RangePointer(rBeg, len)`).  A `$` or `\` followed by a decimal digit
is a backreference token: in-range groups append the group's byte range,
out-of-range groups append nothing, and both characters are consumed.  A `\`
followed by a non-digit emits one `\` and consumes both characters; a `$`
followed by a non-digit is copied alone.  (At the last index the C++ reads
`rawReplStrg[j+1]`, the null terminator, which is not a digit.) -/
def substWalk (doc : List Char) (region : OnigRegion) : List Char → List Char
  | [] => []
  | [c] =>
    -- `rawReplStrg[j+1]` is the null terminator here, never a digit
    if c = '$' ∨ c = '\\' then (if c = '\\' then ['\\'] else [c]) else [c]
  | c :: d :: rest' =>
    if c = '$' ∨ c = '\\' then
      if '0' ≤ d ∧ d ≤ '9' then
        let grpNum := d.toNat - '0'.toNat
        (if h : grpNum < region.regs.length then
          let r := region.regs.get ⟨grpNum, h⟩
          let len := r.2 - r.1
          (doc.drop r.1).take len
        else []) ++ substWalk doc region rest'
      else if c = '\\' then
        '\\' :: substWalk doc region rest'
      else
        c :: substWalk doc region (d :: rest')
    else
      c :: substWalk doc region (d :: rest')

/-- Embeds `OniguRegExEngine::SubstituteByPosition` (lines 330-376).  Returns
`(none, -1)` (a null pointer with `*length = -1`) when no match is held,
otherwise the substitution result and its length. -/
def substituteByPosition (st : RegexInst) (doc : List Char) (text : List Char) :
    Option (List Char) × Int :=
  if st.matchPos < 0 then (none, -1)
  else
    let rawReplStrg := convertReplExpr text
    let out := substWalk doc st.region rawReplStrg
    (some out, (out.length : Int))

/-! ## The recompile step (OnigmoRegExEngine.cxx lines 248-273), parametrised
over the engine compiler

Claim C1 is about the failure path of `onig_new`, which is engine code not
under `src/`; `recompileStep` therefore takes the compiler as a parameter.
A compiler result `.error msg` is a failed compile with diagnostic `msg`
(`onig_error_code_to_str`); per the spec's data-model invariant
("`engineHandle` is non-null iff a successful compile has occurred since the
last pattern/option change", section 3) a failed `onig_new` leaves the handle
slot null. -/

/-- The cache-relevant slice of the instance state mutated by lines 248-273. -/
structure CacheView where
  regExprStrg : List Char
  cmplOptions : OnigOptions
  regExpr : Option (List Char)
  errorInfo : List Char
  region : OnigRegion
deriving DecidableEq, Repr

/-- Line 248: recompile iff the handle is null, the options differ, or the
cached pattern text differs. -/
def needsRecompile (st : CacheView) (s : List Char) (o : OnigOptions) : Prop :=
  st.regExpr = none ∨ st.cmplOptions ≠ o ∨ st.regExprStrg ≠ s

instance (st : CacheView) (s : List Char) (o : OnigOptions) :
    Decidable (needsRecompile st s o) := by
  unfold needsRecompile; infer_instance

/-- Embeds the recompile block of `FindText` (lines 248-273).  `compile` is
the engine's `onig_new`, modelled from the spec: it returns a handle or a
diagnostic message.  Returns the updated cache state and `some (-2)` when the
block makes `FindText` return `Cast2long(-2)` (invalid pattern), `none` when
execution continues past line 273. -/
def recompileStep (compile : List Char → OnigOptions → Except (List Char) (List Char))
    (st : CacheView) (sRegExprStrg : List Char) (opts : OnigOptions) :
    CacheView × Option Int :=
  if needsRecompile st sRegExprStrg opts then
    -- lines 252-255, 259: overwrite the cached text/options, clear the
    -- diagnostic, free the region -- all before onig_new is called
    let st1 : CacheView :=
      { st with regExprStrg := sRegExprStrg, cmplOptions := opts,
                errorInfo := [], region := ⟨[]⟩ }
    match compile sRegExprStrg opts with
    | .error msg => ({ st1 with errorInfo := msg, regExpr := none }, some (-2))
    | .ok h => ({ st1 with regExpr := some h }, none)
  else (st, none)

/-- The engine text is wrapped in `\b` word-boundary assertions (the shape
claim C3 asserts of whole-word translations). -/
def bWrapped (s : List Char) : Prop :=
  ∃ mid, s = ['\\', 'b'] ++ mid ++ ['\\', 'b']

/-- A demonstration search function for the termination claim: a zero-length
hit at every offset up to 2. -/
def demoSearch (b : Nat) : Option (Nat × Nat) :=
  if b ≤ 2 then some (b, 0) else none

/-- A concrete engine compiler that rejects the pattern `(` with diagnostic
`bad` and accepts everything else (exercising the `onig_new` failure path). -/
def failCompiler : List Char → OnigOptions → Except (List Char) (List Char) :=
  fun s _ => if s = ['('] then .error ['b', 'a', 'd'] else .ok s

/-- A cache state holding a successfully compiled pattern `a`. -/
def c1State : CacheView :=
  { regExprStrg := ['a'], cmplOptions := onigOptionDefault,
    regExpr := some ['a'], errorInfo := [], region := ⟨[]⟩ }

/-! ## Sanity checks (concrete evaluations of the embedding) -/

example :
    (translateRegExpr "foo".toList false false SC_EOL_LF onigOptionDefault).1
      = "foo".toList := by decide

example :
    (translateRegExpr "a.b".toList true false SC_EOL_LF onigOptionDefault).1
      = "\\ba\\wb\\b".toList := by decide

example :
    (translateRegExpr "\\<x".toList false false SC_EOL_LF onigOptionDefault).1
      = "(?<!\\w)(?=\\w)x".toList := by decide

example :
    (translateRegExpr "\\\\<x".toList false false SC_EOL_LF onigOptionDefault).1
      = "\\\\<x".toList := by decide

example :
    (translateRegExpr "a$".toList false false SC_EOL_CR onigOptionDefault).1
      = "a(?=\\r)".toList := by decide

example :
    (translateRegExpr "a\\$".toList false false SC_EOL_CR onigOptionDefault).1
      = "a\\$".toList := by decide

example : searchLit "xx foo foo yy".toList "foo".toList 0 13 = some (3, 3) := by decide

example : searchLit "xx foo foo yy".toList "foo".toList 6 13 = some (7, 3) := by decide

example : searchLit "xx foo foo yy".toList "foo".toList 10 13 = none := by decide

example :
    (findText initInst "xx foo foo yy".toList 0 13 (some "foo".toList)
      true false false 0 SC_EOL_LF).2 = (3, 3) := by decide

example :
    (findText initInst "xx foo foo yy".toList 13 0 (some "foo".toList)
      true false false 0 SC_EOL_LF).2 = (7, 3) := by decide

example :
    (findText initInst "aaa".toList 3 0 (some "aa".toList)
      true false false 0 SC_EOL_LF).2 = (0, 2) := by decide

example : convertReplExpr "ab".toList = "ab".toList := by decide

example : convertReplExpr "a\\nb".toList = ['a', Char.ofNat 10, 'b'] := by decide

example : convertReplExpr "\\1".toList = "$1".toList := by decide

example : convertReplExpr "\\\\".toList = "\\\\".toList := by decide

example : convertReplExpr "ab\\".toList = ['a', 'b', Char.ofNat 0] := by decide

example : convertReplExpr "\\x41".toList = ['A'] := by decide

example : convertReplExpr "\\x41Z".toList = ['A'] := by decide

example :
    substWalk "xx foo yy".toList ⟨[(3, 6)]⟩ "$0-$0".toList
      = "foo-foo".toList := by decide

example :
    substWalk "xx foo yy".toList ⟨[(3, 6)]⟩ "$7-".toList = "-".toList := by decide

example : substituteByPosition initInst "abc".toList "x".toList = (none, -1) := by decide

/-! ## Lemmas about replaceAll -/

theorem replaceAllAux_nil (f t : List Char) (k : Nat) : replaceAllAux f t k [] = [] := by
  cases k <;> rfl

theorem replaceAllAux_skip (f t : List Char) :
    ∀ (k : Nat) (l : List Char), replaceAllAux f t k l = replaceAllAux f t 0 (l.drop k) := by
  intro k
  induction k with
  | zero => intro l; rfl
  | succ k ih =>
    intro l
    cases l with
    | nil => simp [replaceAllAux_nil]
    | cons c rest => simpa [replaceAllAux] using ih rest

/-- Peeling one source character when `f` does not match here. -/
theorem replaceAll_cons_neg {f : List Char} (t : List Char) {c : Char} {s : List Char}
    (h : f.isPrefixOf (c :: s) = false) :
    replaceAllAux f t 0 (c :: s) = c :: replaceAllAux f t 0 s := by
  simp [replaceAllAux, h]

/-- Replacing one occurrence when `f` matches at the head. -/
theorem replaceAll_cons_pos {f : List Char} (t : List Char) {c : Char} {s : List Char}
    (h : f.isPrefixOf (c :: s) = true) (hf : 1 ≤ f.length) :
    replaceAllAux f t 0 (c :: s) = t ++ replaceAllAux f t 0 (s.drop (f.length - 1)) := by
  rw [show replaceAllAux f t 0 (c :: s)
      = if f.isPrefixOf (c :: s) ∧ 1 ≤ f.length then
          t ++ replaceAllAux f t (f.length - 1) s
        else c :: replaceAllAux f t 0 s from rfl]
  rw [if_pos ⟨h, hf⟩, replaceAllAux_skip]

/-- Characters of the output come from the source or the replacement text. -/
theorem mem_replaceAllAux {f t : List Char} {x : Char} :
    ∀ (s : List Char) (k : Nat), x ∈ replaceAllAux f t k s → x ∈ s ∨ x ∈ t := by
  intro s
  induction s with
  | nil => intro k; simp [replaceAllAux_nil]
  | cons c rest ih =>
    intro k
    cases k with
    | succ k =>
      intro hx
      rcases ih k hx with h | h
      · exact Or.inl (List.mem_cons_of_mem _ h)
      · exact Or.inr h
    | zero =>
      simp only [replaceAllAux]
      split
      · intro hx
        rcases List.mem_append.mp hx with h | h
        · exact Or.inr h
        · rcases ih _ h with h | h
          · exact Or.inl (List.mem_cons_of_mem _ h)
          · exact Or.inr h
      · intro hx
        rcases List.mem_cons.mp hx with h | h
        · exact Or.inl (h ▸ List.mem_cons_self _ _)
        · rcases ih 0 h with h | h
          · exact Or.inl (List.mem_cons_of_mem _ h)
          · exact Or.inr h

/-- Replacing the single character `c` by `c`-free text removes every `c`. -/
theorem not_mem_replaceAll_single {c : Char} {t : List Char} (hc : c ∉ t) :
    ∀ s : List Char, c ∉ replaceAllAux [c] t 0 s := by
  intro s
  induction s with
  | nil => simp [replaceAllAux_nil]
  | cons a rest ih =>
    by_cases hac : c = a
    · subst hac
      have hp : [c].isPrefixOf (c :: rest) = true := by
        simp [List.isPrefixOf_cons₂]
      rw [replaceAll_cons_pos t hp (by simp)]
      simp only [List.length_cons, List.length_nil, Nat.zero_add, Nat.sub_self,
        List.drop_zero]
      intro hx
      rcases List.mem_append.mp hx with h | h
      · exact hc h
      · exact ih h
    · have hp : [c].isPrefixOf (a :: rest) = false := by
        simp [List.isPrefixOf_cons₂, hac]
      rw [replaceAll_cons_neg t hp]
      intro hx
      rcases List.mem_cons.mp hx with h | h
      · exact hac h
      · exact ih h

/-- A scan passes untouched over a leading segment that avoids `f`'s head
character. -/
theorem replaceAllAux_append_left {f t : List Char} {hc : Char}
    (hf : f.head? = some hc) :
    ∀ (a m : List Char), hc ∉ a →
      replaceAllAux f t 0 (a ++ m) = a ++ replaceAllAux f t 0 m := by
  intro a
  induction a with
  | nil => intro m _; rfl
  | cons c a' ih =>
    intro m hmem
    have hcc : hc ≠ c := fun h => hmem (h ▸ List.mem_cons_self _ _)
    have hp : f.isPrefixOf (c :: (a' ++ m)) = false := by
      cases f with
      | nil => simp at hf
      | cons f0 ftail =>
        have hf0 : f0 = hc := by simpa using hf
        subst hf0
        simp [List.isPrefixOf_cons₂, hcc]
    rw [List.cons_append, replaceAll_cons_neg t hp,
      ih m (fun h => hmem (List.mem_cons_of_mem _ h))]
    rfl

/-- A scan leaves a string untouched when `f`'s head character does not occur
in it. -/
theorem replaceAll_eq_self_of_head_not_mem {f t : List Char} {hc : Char}
    (hf : f.head? = some hc) {m : List Char} (hm : hc ∉ m) :
    replaceAllAux f t 0 m = m := by
  have h := replaceAllAux_append_left (t := t) hf m [] hm
  simpa [replaceAllAux_nil] using h

/-- Auxiliary suffix-preservation bound: if `y` does not occur in `f` and `f`
does not end in `x`, then no occurrence of `f` can consume any part of a
trailing `[x, y]`, so the scan keeps that suffix intact. -/
theorem replaceAllAux_suffix2_aux {f t : List Char} {x y : Char}
    (hne : f ≠ []) (hy : y ∉ f) (hlast : f.getLast? ≠ some x) :
    ∀ (n : Nat) (s : List Char), s.length ≤ n →
      ∃ u, replaceAllAux f t 0 (s ++ [x, y]) = u ++ [x, y] := by
  intro n
  induction n with
  | zero =>
    intro s hs
    have hs0 : s = [] := List.length_eq_zero.mp (Nat.le_zero.mp hs)
    subst hs0
    have hp1 : f.isPrefixOf ([x, y]) = false := by
      by_contra hcon
      have hp := List.isPrefixOf_iff_prefix.mp (Bool.of_not_eq_false hcon)
      obtain ⟨r, hr⟩ := hp
      cases f with
      | nil => exact hne rfl
      | cons f0 ftail =>
        simp only [List.cons_append, List.cons.injEq] at hr
        obtain ⟨hf0, hr2⟩ := hr
        cases ftail with
        | nil =>
          exact hlast (by simp [hf0])
        | cons f1 ftail' =>
          simp only [List.cons_append, List.cons.injEq] at hr2
          exact hy (by simp [hr2.1])
    have hp2 : f.isPrefixOf ([y]) = false := by
      cases f with
      | nil => exact absurd rfl hne
      | cons f0 ftail =>
        cases ftail with
        | nil =>
          have : f0 ≠ y := fun h => hy (by simp [h])
          simp [List.isPrefixOf_cons₂, this]
        | cons f1 ftail' =>
          simp [List.isPrefixOf_cons₂]
    rw [List.nil_append, show ([x, y] : List Char) = x :: [y] from rfl,
      replaceAll_cons_neg t hp1, replaceAll_cons_neg t hp2]
    exact ⟨[], rfl⟩
  | succ n ih =>
    intro s hs
    cases s with
    | nil => exact ih [] (by simp)
    | cons c s' =>
      by_cases hp : f.isPrefixOf (c :: (s' ++ [x, y])) = true
      · -- a replacement happens; show it stays inside `c :: s'`
        have hf1 : 1 ≤ f.length := by
          cases f with
          | nil => exact absurd rfl hne
          | cons f0 ftail => simp
        have hlen : f.length ≤ s'.length + 1 := by
          have hpre := List.isPrefixOf_iff_prefix.mp hp
          obtain ⟨r, hr⟩ := hpre
          have hlen2 : f.length + r.length = s'.length + 3 := by
            have := congrArg List.length hr
            simpa [Nat.add_comm, Nat.add_assoc, Nat.add_left_comm] using this
          by_contra hcon
          have hge : s'.length + 2 ≤ f.length := Nat.lt_of_not_le hcon
          have hrlen : r.length ≤ 1 := by omega
          cases r with
          | nil =>
            have hfeq : f = (c :: s') ++ [x, y] := by simpa using hr
            exact hy (by rw [hfeq]; exact List.mem_append_right _ (by simp))
          | cons z r' =>
            cases r' with
            | nil =>
              have hr' : f ++ [z] = ((c :: s') ++ [x]) ++ [y] := by
                simpa [List.append_assoc] using hr
              have hinj := List.append_inj' hr' (by simp)
              have hfeq : f = (c :: s') ++ [x] := hinj.1
              exact hlast (by rw [hfeq, List.getLast?_concat])
            | cons z2 r'' => simp at hrlen
        rw [List.cons_append, replaceAll_cons_pos t hp hf1]
        have hdrop : (s' ++ [x, y]).drop (f.length - 1)
            = s'.drop (f.length - 1) ++ [x, y] :=
          List.drop_append_of_le_length (by omega)
        rw [hdrop]
        obtain ⟨u', hu'⟩ := ih (s'.drop (f.length - 1))
          (by
            rw [List.length_drop]
            have hs' : s'.length ≤ n := by simpa using hs
            omega)
        rw [hu']
        exact ⟨t ++ u', by simp [List.append_assoc]⟩
      · have hp' : f.isPrefixOf (c :: (s' ++ [x, y])) = false :=
          Bool.of_not_eq_true hp
        rw [List.cons_append, replaceAll_cons_neg t hp']
        obtain ⟨u', hu'⟩ := ih s' (Nat.le_of_succ_le_succ hs)
        rw [hu']
        exact ⟨c :: u', rfl⟩

/-- Suffix preservation: a trailing `[x, y]` survives a scan whose pattern
neither contains `y` nor ends in `x`. -/
theorem replaceAllAux_suffix2 {f t : List Char} {x y : Char}
    (hne : f ≠ []) (hy : y ∉ f) (hlast : f.getLast? ≠ some x) (s : List Char) :
    ∃ u, replaceAllAux f t 0 (s ++ [x, y]) = u ++ [x, y] :=
  replaceAllAux_suffix2_aux hne hy hlast s.length s (Nat.le_refl _)

/-- A pattern that does not contain `'b'` and does not end in `'\'` cannot
match at a leading `"\b"`. -/
theorem notPrefixOf_bsb {f : List Char} (hne : f ≠ []) (hb : 'b' ∉ f)
    (hlast : f.getLast? ≠ some '\\') (r : List Char) :
    f.isPrefixOf ('\\' :: 'b' :: r) = false := by
  cases f with
  | nil => exact absurd rfl hne
  | cons f0 ftail =>
    by_cases h0 : f0 = '\\'
    · subst h0
      cases ftail with
      | nil =>
        exact absurd (show (['\\'] : List Char).getLast? = some '\\' from rfl) hlast
      | cons f1 ftail' =>
        have h1 : f1 ≠ 'b' := fun h => hb (by simp [h])
        simp [List.isPrefixOf_cons₂, h1]
    · simp [List.isPrefixOf_cons₂, h0]

/-- Likewise, such a pattern cannot match at the `'b'` of that leading `"\b"`. -/
theorem notPrefixOf_bTail {f : List Char} (hne : f ≠ []) (hb : 'b' ∉ f)
    (r : List Char) : f.isPrefixOf ('b' :: r) = false := by
  cases f with
  | nil => exact absurd rfl hne
  | cons f0 ftail =>
    have h0 : f0 ≠ 'b' := fun h => hb (by simp [h])
    simp [List.isPrefixOf_cons₂, h0]

/-- One `replaceAll` pass whose pattern avoids `'b'` and does not end in `'\'`
keeps the `\b...\b` bounds. -/
theorem passKeepsBounds {f : List Char} (t : List Char)
    (hne : f ≠ []) (hb : 'b' ∉ f) (hlast : f.getLast? ≠ some '\\')
    (mid : List Char) :
    ∃ mid', replaceAll (['\\', 'b'] ++ mid ++ ['\\', 'b']) f t
      = ['\\', 'b'] ++ mid' ++ ['\\', 'b'] := by
  unfold replaceAll
  rw [show ['\\', 'b'] ++ mid ++ ['\\', 'b'] = '\\' :: 'b' :: (mid ++ ['\\', 'b'])
    from rfl]
  rw [replaceAll_cons_neg t (notPrefixOf_bsb hne hb hlast _),
    replaceAll_cons_neg t (notPrefixOf_bTail hne hb _)]
  obtain ⟨u, hu⟩ := replaceAllAux_suffix2 (t := t) hne hb hlast mid
  exact ⟨u, by rw [hu]; rfl⟩

/-- One pass preserves both the `\b` bounds and dot-freeness (the replacement
texts used by the translator contain no `'.'`). -/
theorem passStep {f t : List Char}
    (hne : f ≠ []) (hb : 'b' ∉ f) (hlast : f.getLast? ≠ some '\\')
    (hdot : '.' ∉ t) {s : List Char} (hs : bWrapped s) (hsd : '.' ∉ s) :
    bWrapped (replaceAll s f t) ∧ '.' ∉ replaceAll s f t := by
  obtain ⟨mid, hm⟩ := hs
  subst hm
  refine ⟨passKeepsBounds t hne hb hlast mid, ?_⟩
  intro hx
  rcases mem_replaceAllAux _ _ hx with h | h
  · exact hsd h
  · exact hdot h

/-! ## Scanning lemmas for concrete rewrite patterns -/

theorem notPrefixOf_head {f0 c : Char} {frest r : List Char} (h : f0 ≠ c) :
    List.isPrefixOf (f0 :: frest) (c :: r) = false := by
  simp [List.isPrefixOf_cons₂, h]

theorem notPrefixOf_two {c0 c1 f1 : Char} {frest r : List Char} (h : f1 ≠ c1) :
    List.isPrefixOf (c0 :: f1 :: frest) (c0 :: c1 :: r) = false := by
  simp [List.isPrefixOf_cons₂, h]

/-- An occurrence of the pattern itself at the head is replaced. -/
theorem replaceAll_match_head {f : List Char} (t : List Char) (hne : f ≠ [])
    (b : List Char) :
    replaceAllAux f t 0 (f ++ b) = t ++ replaceAllAux f t 0 b := by
  cases f with
  | nil => exact absurd rfl hne
  | cons f0 ftail =>
    have hp : (f0 :: ftail).isPrefixOf (f0 :: (ftail ++ b)) = true :=
      List.isPrefixOf_iff_prefix.mpr ⟨b, rfl⟩
    rw [List.cons_append, replaceAll_cons_pos t hp (by simp)]
    rw [show (f0 :: ftail).length - 1 = ftail.length by simp]
    rw [List.drop_left]

/-- An occurrence of the whole pattern between contexts free of its head
character is replaced, and nothing else is. -/
theorem replaceAll_matchMid {f : List Char} (t : List Char) {hc : Char}
    (hf : f.head? = some hc) {a b : List Char} (ha : hc ∉ a) (hb : hc ∉ b) :
    replaceAllAux f t 0 (a ++ f ++ b) = a ++ t ++ b := by
  have hne : f ≠ [] := by cases f with | nil => simp at hf | cons x l => simp
  rw [List.append_assoc, replaceAllAux_append_left hf a (f ++ b) ha,
    replaceAll_match_head t hne,
    replaceAll_eq_self_of_head_not_mem hf hb, ← List.append_assoc]

/-- A single-character pattern `[c]` guarded by a preceding backslash:
the backslash is passed over, the `c` itself is replaced. -/
theorem replaceAll_escMatch1 (t : List Char) {c : Char} (hcs : c ≠ '\\')
    {a b : List Char} (ha : c ∉ a) (hb : c ∉ b) :
    replaceAllAux [c] t 0 (a ++ '\\' :: c :: b) = a ++ '\\' :: (t ++ b) := by
  rw [replaceAllAux_append_left List.head?_cons a ('\\' :: c :: b) ha,
    replaceAll_cons_neg t (notPrefixOf_head hcs),
    show (c :: b : List Char) = [c] ++ b from rfl,
    replaceAll_match_head t (by simp),
    replaceAll_eq_self_of_head_not_mem List.head?_cons hb]

/-- A two-character pattern `['\', f1]` whose occurrence is itself escaped by
one more backslash: the escape survives and the occurrence is replaced. -/
theorem replaceAll_escMatch2 (t : List Char) {f1 : Char} (h1 : f1 ≠ '\\')
    {a b : List Char} (ha : '\\' ∉ a) (hb : '\\' ∉ b) :
    replaceAllAux ['\\', f1] t 0 (a ++ '\\' :: '\\' :: f1 :: b)
      = a ++ '\\' :: (t ++ b) := by
  rw [replaceAllAux_append_left List.head?_cons a ('\\' :: '\\' :: f1 :: b) ha,
    replaceAll_cons_neg t (notPrefixOf_two h1),
    show ('\\' :: f1 :: b : List Char) = ['\\', f1] ++ b from rfl,
    replaceAll_match_head t (by simp),
    replaceAll_eq_self_of_head_not_mem List.head?_cons hb]

/-- A pattern `'\' :: f1 :: _` does not touch `a ++ '\' :: c :: b` when
`f1 ≠ c`. -/
theorem replaceAll_skipEsc1 {f1 : Char} {frest : List Char} (t : List Char)
    {c : Char} (h1 : f1 ≠ c) (hc : '\\' ≠ c) {a b : List Char}
    (ha : '\\' ∉ a) (hb : '\\' ∉ b) :
    replaceAllAux ('\\' :: f1 :: frest) t 0 (a ++ '\\' :: c :: b)
      = a ++ '\\' :: c :: b := by
  rw [replaceAllAux_append_left List.head?_cons a ('\\' :: c :: b) ha,
    replaceAll_cons_neg t (notPrefixOf_two h1),
    replaceAll_cons_neg t (notPrefixOf_head hc),
    replaceAll_eq_self_of_head_not_mem List.head?_cons hb]

/-- A pattern `'\' :: f1 :: _` does not touch `a ++ '\' :: '\' :: c :: b`
when `f1` differs from both `'\'` and `c`. -/
theorem replaceAll_skipEsc2 {f1 : Char} {frest : List Char} (t : List Char)
    {c : Char} (h1 : f1 ≠ '\\') (h2 : f1 ≠ c) (hc : '\\' ≠ c) {a b : List Char}
    (ha : '\\' ∉ a) (hb : '\\' ∉ b) :
    replaceAllAux ('\\' :: f1 :: frest) t 0 (a ++ '\\' :: '\\' :: c :: b)
      = a ++ '\\' :: '\\' :: c :: b := by
  rw [replaceAllAux_append_left List.head?_cons a ('\\' :: '\\' :: c :: b) ha,
    replaceAll_cons_neg t (notPrefixOf_two h1),
    replaceAll_cons_neg t (notPrefixOf_two h2),
    replaceAll_cons_neg t (notPrefixOf_head hc),
    replaceAll_eq_self_of_head_not_mem List.head?_cons hb]

/-- Walking over one backslash-free segment followed by an escape `'\' :: c`
that the pattern cannot match. -/
theorem replaceAll_segEsc {f1 : Char} {frest : List Char} (t : List Char)
    {c : Char} (h1 : f1 ≠ c) (hc : c ≠ '\\') {seg : List Char}
    (hseg : '\\' ∉ seg) (r : List Char) :
    replaceAllAux ('\\' :: f1 :: frest) t 0 (seg ++ '\\' :: c :: r)
      = seg ++ '\\' :: c :: replaceAllAux ('\\' :: f1 :: frest) t 0 r := by
  rw [replaceAllAux_append_left List.head?_cons seg ('\\' :: c :: r) hseg,
    replaceAll_cons_neg t (notPrefixOf_two h1),
    replaceAll_cons_neg t (notPrefixOf_head (Ne.symm hc))]

/-- The expanded word-boundary assertions (`(?<!\w)(?=\w)` and the like) have
shape `seg1 ++ "\w" ++ seg2 ++ "\w" ++ seg3` with backslash-free segments; a
pattern `'\' :: f1 :: _` with `f1 ≠ 'w'` passes over them untouched. -/
theorem replaceAll_overWordRepl {f1 : Char} {frest : List Char} (t : List Char)
    (h1 : f1 ≠ 'w') {seg1 seg2 seg3 : List Char}
    (hs1 : '\\' ∉ seg1) (hs2 : '\\' ∉ seg2) (hs3 : '\\' ∉ seg3)
    {b : List Char} (hb : '\\' ∉ b) :
    replaceAllAux ('\\' :: f1 :: frest) t 0
        (seg1 ++ '\\' :: 'w' :: (seg2 ++ '\\' :: 'w' :: (seg3 ++ b)))
      = seg1 ++ '\\' :: 'w' :: (seg2 ++ '\\' :: 'w' :: (seg3 ++ b)) := by
  rw [replaceAll_segEsc t h1 (by decide) hs1,
    replaceAll_segEsc t h1 (by decide) hs2,
    replaceAllAux_append_left List.head?_cons seg3 b hs3,
    replaceAll_eq_self_of_head_not_mem List.head?_cons hb]

/-- The text component of the translator for plain (non-word) searches in
`SC_EOL_LF` mode: exactly the four boundary-shorthand passes (the rewrite
strings written out as character lists). -/
theorem translate_noWord_LF (s : List Char) (o : OnigOptions) :
    (translateRegExpr s false false SC_EOL_LF o).1
      = replaceAllAux ['\\', '(', '?', '<', '=', '\\', 'w', ')', '(', '?', '!', '\\', 'w', ')']
          ['\\', '\\', '>'] 0
          (replaceAllAux ['\\', '>']
            ['(', '?', '<', '=', '\\', 'w', ')', '(', '?', '!', '\\', 'w', ')'] 0
            (replaceAllAux ['\\', '(', '?', '<', '!', '\\', 'w', ')', '(', '?', '=', '\\', 'w', ')']
              ['\\', '\\', '<'] 0
              (replaceAllAux ['\\', '<']
                ['(', '?', '<', '!', '\\', 'w', ')', '(', '?', '=', '\\', 'w', ')'] 0 s))) := rfl

/-- Likewise in `SC_EOL_CR` mode: the four passes followed by the two
end-of-line anchor passes. -/
theorem translate_noWord_CR (s : List Char) (o : OnigOptions) :
    (translateRegExpr s false false SC_EOL_CR o).1
      = replaceAllAux ['\\', '(', '?', '=', '\\', 'r', ')'] ['\\', '$'] 0
          (replaceAllAux ['$'] ['(', '?', '=', '\\', 'r', ')'] 0
            (replaceAllAux ['\\', '(', '?', '<', '=', '\\', 'w', ')', '(', '?', '!', '\\', 'w', ')']
              ['\\', '\\', '>'] 0
              (replaceAllAux ['\\', '>']
                ['(', '?', '<', '=', '\\', 'w', ')', '(', '?', '!', '\\', 'w', ')'] 0
                (replaceAllAux ['\\', '(', '?', '<', '!', '\\', 'w', ')', '(', '?', '=', '\\', 'w', ')']
                  ['\\', '\\', '<'] 0
                  (replaceAllAux ['\\', '<']
                    ['(', '?', '<', '!', '\\', 'w', ')', '(', '?', '=', '\\', 'w', ')'] 0 s))))) := rfl

/-- A pattern `'\' :: f1 :: _` with `f1 ≠ 'w'` passes over the expanded
word-begin assertion `(?<!\w)(?=\w)` untouched. -/
theorem replaceAll_skip_wbr {f1 : Char} {frest : List Char} (t : List Char)
    (h1 : f1 ≠ 'w') {b : List Char} (hb : '\\' ∉ b) :
    replaceAllAux ('\\' :: f1 :: frest) t 0
        ('(' :: '?' :: '<' :: '!' :: '\\' :: 'w' :: ')' :: '(' :: '?' :: '=' :: '\\' :: 'w' :: ')' :: b)
      = '(' :: '?' :: '<' :: '!' :: '\\' :: 'w' :: ')' :: '(' :: '?' :: '=' :: '\\' :: 'w' :: ')' :: b := by
  have h := @replaceAll_overWordRepl f1 frest t h1 ['(', '?', '<', '!']
    [')', '(', '?', '='] [')'] (by decide) (by decide) (by decide) b hb
  exact h

/-- Likewise over the expanded word-end assertion `(?<=\w)(?!\w)`. -/
theorem replaceAll_skip_wer {f1 : Char} {frest : List Char} (t : List Char)
    (h1 : f1 ≠ 'w') {b : List Char} (hb : '\\' ∉ b) :
    replaceAllAux ('\\' :: f1 :: frest) t 0
        ('(' :: '?' :: '<' :: '=' :: '\\' :: 'w' :: ')' :: '(' :: '?' :: '!' :: '\\' :: 'w' :: ')' :: b)
      = '(' :: '?' :: '<' :: '=' :: '\\' :: 'w' :: ')' :: '(' :: '?' :: '!' :: '\\' :: 'w' :: ')' :: b := by
  have h := @replaceAll_overWordRepl f1 frest t h1 ['(', '?', '<', '=']
    [')', '(', '?', '!'] [')'] (by decide) (by decide) (by decide) b hb
  exact h

/-- Likewise, when `f1 ≠ 'r'`, the scan passes over the carriage-return lookahead `(?=\r)`. -/
theorem replaceAll_skip_crl {f1 : Char} {frest : List Char} (t : List Char)
    (h1 : f1 ≠ 'r') {b : List Char} (hb : '\\' ∉ b) :
    replaceAllAux ('\\' :: f1 :: frest) t 0
        ('(' :: '?' :: '=' :: '\\' :: 'r' :: ')' :: b)
      = '(' :: '?' :: '=' :: '\\' :: 'r' :: ')' :: b := by
  have h : replaceAllAux ('\\' :: f1 :: frest) t 0
      (['(', '?', '='] ++ '\\' :: 'r' :: ([')'] ++ b))
      = ['(', '?', '='] ++ '\\' :: 'r' :: replaceAllAux ('\\' :: f1 :: frest) t 0 ([')'] ++ b) :=
    replaceAll_segEsc t h1 (by decide) (by decide) ([')'] ++ b)
  rw [replaceAllAux_append_left List.head?_cons [')'] b (by decide),
    replaceAll_eq_self_of_head_not_mem List.head?_cons hb] at h
  exact h

/-! ## Correctness of the modelled search primitive -/

theorem searchLitAux_some {doc pat : List Char} :
    ∀ (fuel start o l : Nat), searchLitAux doc pat fuel start = some (o, l) →
      l = pat.length ∧ start ≤ o ∧ o < start + fuel ∧ matchAt doc pat o = true
        ∧ ∀ j, start ≤ j → j < o → matchAt doc pat j = false := by
  intro fuel
  induction fuel with
  | zero => intro start o l h; simp [searchLitAux] at h
  | succ fuel ih =>
    intro start o l h
    by_cases hm : matchAt doc pat start = true
    · rw [searchLitAux, if_pos hm] at h
      obtain ⟨ho, hl⟩ : start = o ∧ pat.length = l := by
        simpa using h
      subst ho; subst hl
      exact ⟨rfl, Nat.le_refl _, by omega, hm, fun j h1 h2 => by omega⟩
    · have hm' : matchAt doc pat start = false := Bool.of_not_eq_true hm
      rw [searchLitAux, if_neg (by simp [hm'])] at h
      obtain ⟨hl, hle, hlt, hmo, hmin⟩ := ih (start + 1) o l h
      refine ⟨hl, by omega, by omega, hmo, ?_⟩
      intro j h1 h2
      rcases Nat.eq_or_lt_of_le h1 with h1 | h1
      · exact h1 ▸ hm'
      · exact hmin j h1 h2

theorem searchLitAux_none {doc pat : List Char} :
    ∀ (fuel start : Nat), searchLitAux doc pat fuel start = none ↔
      ∀ j, start ≤ j → j < start + fuel → matchAt doc pat j = false := by
  intro fuel
  induction fuel with
  | zero => intro start; simp [searchLitAux]; intro j h1 h2; omega
  | succ fuel ih =>
    intro start
    by_cases hm : matchAt doc pat start = true
    · rw [searchLitAux, if_pos hm]
      simp only [reduceCtorEq, false_iff]
      intro hall
      exact absurd (hall start (Nat.le_refl _) (by omega)) (by simp [hm])
    · have hm' : matchAt doc pat start = false := Bool.of_not_eq_true hm
      rw [searchLitAux, if_neg (by simp [hm']), ih]
      constructor
      · intro hall j h1 h2
        rcases Nat.eq_or_lt_of_le h1 with h1 | h1
        · exact h1 ▸ hm'
        · exact hall j h1 (by omega)
      · intro hall j h1 h2
        exact hall j (by omega) (by omega)

theorem searchLit_some {doc pat : List Char} {start range o l : Nat}
    (h : searchLit doc pat start range = some (o, l)) :
    l = pat.length ∧ start ≤ o ∧ o < range ∧ matchAt doc pat o = true
      ∧ ∀ j, start ≤ j → j < o → matchAt doc pat j = false := by
  unfold searchLit at h
  obtain ⟨hl, hle, hlt, hm, hmin⟩ := searchLitAux_some _ _ _ _ h
  exact ⟨hl, hle, by omega, hm, hmin⟩

theorem searchLit_none {doc pat : List Char} {start range : Nat} :
    searchLit doc pat start range = none ↔
      ∀ j, start ≤ j → j < range → matchAt doc pat j = false := by
  unfold searchLit
  rw [searchLitAux_none]
  constructor
  · intro h j h1 h2; exact h j h1 (by omega)
  · intro h j h1 h2; exact h j h1 (by omega)

theorem searchLit_of_le {doc pat : List Char} {start range : Nat}
    (h : range ≤ start) : searchLit doc pat start range = none := by
  unfold searchLit
  rw [show range - start = 0 by omega]
  rfl

/-! ## The backward scan loop: specification

For the literal engine, the loop either keeps `last` (no hit at or after the
current lower bound) or ends on a recorded hit `q` past which no further match
starts before the range end. -/

theorem backScan_spec (doc cpat : List Char) (rEnd : Nat) :
    ∀ (n b : Nat) (last : Option (Nat × Nat)) (fuel : Nat),
      rEnd + 1 - b ≤ n → 1 ≤ fuel → rEnd + 2 ≤ fuel + b →
      ∃ r, backScanAux (fun x => searchLit doc cpat x rEnd) rEnd fuel
            (searchLit doc cpat b rEnd) b last = some r
        ∧ ((∀ j, b ≤ j → j < rEnd → matchAt doc cpat j = false) → r = last)
        ∧ (∀ p l, searchLit doc cpat b rEnd = some (p, l) →
            ∃ q, r = some (q, cpat.length) ∧ b ≤ q ∧ q < rEnd
              ∧ matchAt doc cpat q = true
              ∧ ∀ j, q + max 1 cpat.length ≤ j → j < rEnd →
                  matchAt doc cpat j = false) := by
  intro n
  induction n with
  | zero =>
    intro b last fuel hn hf1 hf2
    have hbe : rEnd ≤ b := by omega
    have hnone : searchLit doc cpat b rEnd = none := searchLit_of_le hbe
    rw [hnone]
    cases fuel with
    | zero => omega
    | succ fuel =>
      exact ⟨last, rfl, fun _ => rfl, fun p l h => by simp at h⟩
  | succ n ih =>
    intro b last fuel hn hf1 hf2
    cases hres : searchLit doc cpat b rEnd with
    | none =>
      cases fuel with
      | zero => omega
      | succ fuel =>
        refine ⟨last, rfl, fun _ => rfl, fun p l h => ?_⟩
        simp at h
    | some pl =>
      obtain ⟨p, l⟩ := pl
      obtain ⟨hl, hbp, hplt, hmp, hmin⟩ := searchLit_some hres
      have hble : b ≤ rEnd := by omega
      cases fuel with
      | zero => omega
      | succ fuel =>
        have hstep : backScanAux (fun x => searchLit doc cpat x rEnd) rEnd
            (fuel + 1) (some (p, l)) b last
            = backScanAux (fun x => searchLit doc cpat x rEnd) rEnd fuel
                (searchLit doc cpat (p + max 1 l) rEnd) (p + max 1 l)
                (some (p, l)) := by
          rw [show backScanAux (fun x => searchLit doc cpat x rEnd) rEnd
              (fuel + 1) (some (p, l)) b last
              = if b ≤ rEnd then
                  backScanAux (fun x => searchLit doc cpat x rEnd) rEnd fuel
                    (searchLit doc cpat (p + max 1 l) rEnd) (p + max 1 l)
                    (some (p, l))
                else some last from rfl, if_pos hble]
        obtain ⟨r, hrun, hkeep, hsome⟩ := ih (p + max 1 l) (some (p, l)) fuel
          (by omega) (by omega) (by omega)
        refine ⟨r, ?_, ?_, ?_⟩
        · rw [hstep]; exact hrun
        · intro hemp
          exact absurd hmp (by simp [hemp p hbp hplt])
        · intro p0 l0 h0
          obtain ⟨hp0, hl0⟩ : p = p0 ∧ l = l0 := by simpa using h0
          cases hres2 : searchLit doc cpat (p + max 1 l) rEnd with
          | none =>
            have hafter := searchLit_none.mp hres2
            have hr : r = some (p, l) := hkeep hafter
            exact ⟨p, by rw [hr, hl], hbp, hplt, hmp,
              fun j h1 h2 => hafter j (by omega) h2⟩
          | some pl2 =>
            obtain ⟨p2, l2⟩ := pl2
            obtain ⟨q, hq1, hq2, hq3, hq4, hq5⟩ := hsome p2 l2 hres2
            exact ⟨q, hq1, by omega, hq3, hq4, hq5⟩

/-- The translated pattern text does not depend on the incoming engine
options (only the returned options do). -/
theorem translate_text_indep (p : List Char) (w ws : Bool) (e : Nat)
    (o o' : OnigOptions) :
    (translateRegExpr p w ws e o).1 = (translateRegExpr p w ws e o').1 := by
  unfold translateRegExpr
  by_cases h1 : e = SC_EOL_LF
  · simp [h1]
  · by_cases h2 : e = SC_EOL_CR
    · simp [h1, h2, SC_EOL_CR, SC_EOL_LF]
    · by_cases h3 : e = SC_EOL_CRLF
      · simp [h1, h2, h3, SC_EOL_CRLF, SC_EOL_CR, SC_EOL_LF]
      · simp [h1, h2, h3]

/-- Characterization: `findText` on a nonempty pattern, on any state whose compiled handle (if
present) was compiled from the cached text: the returned `(value, length)`
pair is determined by `findHit` on the translated pattern, and the stored
`m_MatchPos` / `m_MatchLen` equal the returned pair. -/
theorem findText_characterization (st : RegexInst) (doc : List Char)
    (minPos maxPos : Nat) (pat : List Char) (cs w ws : Bool) (fl eol : Nat)
    (hinv : ∀ h, st.regExpr = some h → h = st.regExprStrg)
    (hpat : pat ≠ []) :
    (findText st doc minPos maxPos (some pat) cs w ws fl eol).2
        = (match findHit doc ((translateRegExpr pat w ws eol onigOptionDefault).1)
              (if minPos > maxPos then maxPos else minPos)
              (if minPos > maxPos then minPos else maxPos)
              (minPos > maxPos) with
           | some (p, l) => ((p : Int), (l : Int))
           | none => ((-1 : Int), (0 : Int)))
      ∧ (findText st doc minPos maxPos (some pat) cs w ws fl eol).1.matchPos
          = (findText st doc minPos maxPos (some pat) cs w ws fl eol).2.1
      ∧ (findText st doc minPos maxPos (some pat) cs w ws fl eol).1.matchLen
          = (findText st doc minPos maxPos (some pat) cs w ws fl eol).2.2 := by
  have hlen : ¬ pat.length = 0 := by simpa [List.length_eq_zero] using hpat
  simp only [findText, hlen, if_false]
  set S := (translateRegExpr pat w ws eol
    { extend := false,
      dotall := decide (fl.land SCFIND_DOT_MATCH_ALL ≠ 0),
      negateSingleline := true,
      captureGroup := true,
      ignorecase := !cs,
      notbol := decide ((if minPos > maxPos then maxPos else minPos) ≠ 0),
      noteol := decide ((if minPos > maxPos then minPos else maxPos) ≠ doc.length) }).1
    with hS
  have hSdef : S = (translateRegExpr pat w ws eol onigOptionDefault).1 := by
    rw [hS]; exact translate_text_indep _ _ _ _ _ _
  by_cases hrc : (st.regExpr.isNone
      || decide (st.cmplOptions ≠ (translateRegExpr pat w ws eol
          { extend := false,
            dotall := decide (fl.land SCFIND_DOT_MATCH_ALL ≠ 0),
            negateSingleline := true,
            captureGroup := true,
            ignorecase := !cs,
            notbol := decide ((if minPos > maxPos then maxPos else minPos) ≠ 0),
            noteol := decide ((if minPos > maxPos then minPos else maxPos) ≠ doc.length) }).2)
      || decide (st.regExprStrg ≠ S)) = true
  · rw [if_pos hrc]
    simp only [Option.getD_some]
    rw [hSdef]
    cases hfh : findHit doc ((translateRegExpr pat w ws eol onigOptionDefault).1)
        (if minPos > maxPos then maxPos else minPos)
        (if minPos > maxPos then minPos else maxPos) (minPos > maxPos) with
    | none => exact ⟨rfl, by trivial, by trivial⟩
    | some pl => obtain ⟨p, l⟩ := pl; exact ⟨rfl, by trivial, by trivial⟩
  · rw [if_neg hrc]
    have hrc' := Bool.of_not_eq_true hrc
    simp only [Bool.or_eq_false_iff] at hrc'
    obtain ⟨⟨hnone, _⟩, hstrg⟩ := hrc'
    have hstrg' : st.regExprStrg = S := by
      by_contra hne
      simp [hne] at hstrg
    cases hre : st.regExpr with
    | none => simp [hre] at hnone
    | some h =>
      have hh : h = st.regExprStrg := hinv h hre
      simp only [hre, Option.getD_some]
      rw [hh, hstrg', hSdef]
      cases hfh : findHit doc ((translateRegExpr pat w ws eol onigOptionDefault).1)
          (if minPos > maxPos then maxPos else minPos)
          (if minPos > maxPos then minPos else maxPos) (minPos > maxPos) with
      | none => exact ⟨rfl, by trivial, by trivial⟩
      | some pl => obtain ⟨p, l⟩ := pl; exact ⟨rfl, by trivial, by trivial⟩

/-! ## findHit: range-level facts -/

theorem findHit_empty {doc cpat : List Char} {rb re : Nat} (fp : Prop)
    [Decidable fp]
    (hemp : ∀ j, rb ≤ j → j < re → matchAt doc cpat j = false) :
    findHit doc cpat rb re fp = none := by
  have hres : searchLit doc cpat rb re = none := searchLit_none.mpr hemp
  simp only [findHit, hres]
  by_cases hfp : fp
  · rw [if_pos hfp]
    rfl
  · rw [if_neg hfp]

theorem findHit_fwd {doc cpat : List Char} {rb re : Nat} {fp : Prop}
    [Decidable fp] (hfp : ¬ fp) :
    findHit doc cpat rb re fp
      = match searchLit doc cpat rb re with
        | some (p, l) => if rb ≤ re then some (p, l) else none
        | none => none := by
  simp only [findHit, if_neg hfp]

theorem findHit_bwd {doc cpat : List Char} {rb re : Nat} {fp : Prop}
    [Decidable fp] (hfp : fp) {p l : Nat}
    (hsl : searchLit doc cpat rb re = some (p, l)) :
    ∃ q, findHit doc cpat rb re fp = some (q, cpat.length)
      ∧ rb ≤ q ∧ q < re ∧ matchAt doc cpat q = true
      ∧ ∀ j, q + max 1 cpat.length ≤ j → j < re → matchAt doc cpat j = false := by
  obtain ⟨r, hrun, hkeep, hsome⟩ := backScan_spec doc cpat re (re + 1) rb none
    (re + 2) (by omega) (by omega) (by omega)
  obtain ⟨q, hq1, hq2, hq3, hq4, hq5⟩ := hsome p l hsl
  refine ⟨q, ?_, hq2, hq3, hq4, hq5⟩
  simp only [findHit, if_pos hfp, hrun, hq1]

/-! ## Claim C4 -/

/-- C4, counterexample: for overlapping matches, backward search does not
return the highest-offset match.  Pattern `aa` on buffer `aaa` has matches at
offsets 0 and 1 inside the range `[0, 3)`, but the backward scan advances past
the whole first hit (`0 + max(1, 2) = 2`) and finds nothing at offset 2, so it
reports the match at offset 0, not the one at offset 1. -/
theorem c4_counterexample :
    (findText initInst ['a', 'a', 'a'] 3 0 (some ['a', 'a'])
        true false false 0 SC_EOL_LF).2 = (0, 2)
      ∧ matchAt ['a', 'a', 'a']
          ((translateRegExpr ['a', 'a'] false false SC_EOL_LF onigOptionDefault).1) 1
          = true
      ∧ (1 : Nat) < 3 := by
  decide

/-- C4 (amended): search semantics of the driver over the spec-modelled
literal engine.  (i), (ii): the spec scenario -- pattern `foo` on
`"xx foo foo yy"`, forward over `[0,13)` yields offset 3 length 3, backward
with `minPos = 13, maxPos = 0` yields offset 7 length 3.  (iii): when the
range holds no match, both directions report `(-1, 0)`.  (iv): when the range
holds exactly one match, both directions return it.  (v): a backward search
either reports `(-1, 0)` with no match in range, or reports a match `q` in
range such that every match in the range starts before `q + max 1 len`; in
particular, when no two distinct matches in the range overlap (their starts
are at least `max 1 len` apart), `q` is the highest-offset match.  The claim's
unqualified "highest-offset match" fails for overlapping matches
(`c4_counterexample`). -/
theorem c4_search_semantics :
    (findText initInst "xx foo foo yy".toList 0 13 (some "foo".toList)
        true false false 0 SC_EOL_LF).2 = (3, 3)
  ∧ (findText initInst "xx foo foo yy".toList 13 0 (some "foo".toList)
        true false false 0 SC_EOL_LF).2 = (7, 3)
  ∧ (∀ (st : RegexInst) (doc : List Char) (minPos maxPos : Nat)
        (pat : List Char) (cs w ws : Bool) (fl eol : Nat),
      (∀ h, st.regExpr = some h → h = st.regExprStrg) → pat ≠ [] →
      (∀ j, (if minPos > maxPos then maxPos else minPos) ≤ j →
        j < (if minPos > maxPos then minPos else maxPos) →
        matchAt doc ((translateRegExpr pat w ws eol onigOptionDefault).1) j
          = false) →
      (findText st doc minPos maxPos (some pat) cs w ws fl eol).2 = (-1, 0))
  ∧ (∀ (st : RegexInst) (doc : List Char) (minPos maxPos : Nat)
        (pat : List Char) (cs w ws : Bool) (fl eol : Nat) (o0 : Nat),
      (∀ h, st.regExpr = some h → h = st.regExprStrg) → pat ≠ [] →
      (if minPos > maxPos then maxPos else minPos) ≤ o0 →
      o0 < (if minPos > maxPos then minPos else maxPos) →
      matchAt doc ((translateRegExpr pat w ws eol onigOptionDefault).1) o0
        = true →
      (∀ j, (if minPos > maxPos then maxPos else minPos) ≤ j →
        j < (if minPos > maxPos then minPos else maxPos) →
        matchAt doc ((translateRegExpr pat w ws eol onigOptionDefault).1) j
          = true → j = o0) →
      (findText st doc minPos maxPos (some pat) cs w ws fl eol).2
        = ((o0 : Int),
           ((translateRegExpr pat w ws eol onigOptionDefault).1.length : Int)))
  ∧ (∀ (st : RegexInst) (doc : List Char) (minPos maxPos : Nat)
        (pat : List Char) (cs w ws : Bool) (fl eol : Nat),
      (∀ h, st.regExpr = some h → h = st.regExprStrg) → pat ≠ [] →
      maxPos < minPos →
      ((findText st doc minPos maxPos (some pat) cs w ws fl eol).2 = (-1, 0)
          ∧ ∀ j, maxPos ≤ j → j < minPos →
              matchAt doc ((translateRegExpr pat w ws eol onigOptionDefault).1) j
                = false)
        ∨ (∃ q : Nat, (findText st doc minPos maxPos (some pat) cs w ws fl eol).2
              = ((q : Int),
                 ((translateRegExpr pat w ws eol onigOptionDefault).1.length : Int))
            ∧ maxPos ≤ q ∧ q < minPos
            ∧ matchAt doc ((translateRegExpr pat w ws eol onigOptionDefault).1) q
                = true
            ∧ (∀ j, maxPos ≤ j → j < minPos →
                matchAt doc ((translateRegExpr pat w ws eol onigOptionDefault).1) j
                  = true →
                j < q + max 1 (translateRegExpr pat w ws eol onigOptionDefault).1.length)
            ∧ ((∀ j k, maxPos ≤ j → j < minPos → maxPos ≤ k → k < minPos →
                  matchAt doc ((translateRegExpr pat w ws eol onigOptionDefault).1) j
                    = true →
                  matchAt doc ((translateRegExpr pat w ws eol onigOptionDefault).1) k
                    = true →
                  j < k →
                  j + max 1 (translateRegExpr pat w ws eol onigOptionDefault).1.length
                    ≤ k) →
                ∀ j, maxPos ≤ j → j < minPos →
                  matchAt doc ((translateRegExpr pat w ws eol onigOptionDefault).1) j
                    = true → j ≤ q))) := by
  refine ⟨by decide, by decide, ?_, ?_, ?_⟩
  · -- (iii) zero matches: both directions report the no-match outcome
    intro st doc minPos maxPos pat cs w ws fl eol hinv hpat hemp
    obtain ⟨hchar, _, _⟩ :=
      findText_characterization st doc minPos maxPos pat cs w ws fl eol hinv hpat
    rw [hchar, findHit_empty _ hemp]
  · -- (iv) exactly one match: both directions return it
    intro st doc minPos maxPos pat cs w ws fl eol o0 hinv hpat ho1 ho2 hom huniq
    obtain ⟨hchar, _, _⟩ :=
      findText_characterization st doc minPos maxPos pat cs w ws fl eol hinv hpat
    rw [hchar]
    have hble : (if minPos > maxPos then maxPos else minPos)
        ≤ (if minPos > maxPos then minPos else maxPos) := by omega
    cases hsl : searchLit doc ((translateRegExpr pat w ws eol onigOptionDefault).1)
        (if minPos > maxPos then maxPos else minPos)
        (if minPos > maxPos then minPos else maxPos) with
    | none => exact absurd hom (by simp [searchLit_none.mp hsl o0 ho1 ho2])
    | some pl =>
      obtain ⟨p, l⟩ := pl
      obtain ⟨hl, hp1, hp2, hpm, _⟩ := searchLit_some hsl
      have hpo : p = o0 := huniq p hp1 hp2 hpm
      by_cases hdir : minPos > maxPos
      · obtain ⟨q, hq1, hq2, hq3, hq4, _⟩ := findHit_bwd hdir hsl
        have hqo : q = o0 := huniq q hq2 hq3 hq4
        rw [hq1, hqo]
      · simp [findHit_fwd hdir, hsl, hble, hpo, hl]
  · -- (v) backward search: no match, or the last hit of the advancing scan
    intro st doc minPos maxPos pat cs w ws fl eol hinv hpat hdir
    obtain ⟨hchar, _, _⟩ :=
      findText_characterization st doc minPos maxPos pat cs w ws fl eol hinv hpat
    have hif1 : (if minPos > maxPos then maxPos else minPos) = maxPos :=
      if_pos hdir
    have hif2 : (if minPos > maxPos then minPos else maxPos) = minPos :=
      if_pos hdir
    rw [hif1, hif2] at hchar
    cases hsl : searchLit doc ((translateRegExpr pat w ws eol onigOptionDefault).1)
        maxPos minPos with
    | none =>
      left
      have hemp := searchLit_none.mp hsl
      constructor
      · rw [hchar, findHit_empty _ hemp]
      · exact hemp
    | some pl =>
      obtain ⟨p, l⟩ := pl
      right
      obtain ⟨q, hq1, hq2, hq3, hq4, hq5⟩ := findHit_bwd hdir hsl
      refine ⟨q, by rw [hchar, hq1], hq2, hq3, hq4, ?_, ?_⟩
      · intro j hj1 hj2 hjm
        by_contra hcon
        exact absurd hjm (by simp [hq5 j (by omega) hj2])
      · intro hdisj j hj1 hj2 hjm
        by_contra hcon
        have hqj : q < j := by omega
        have hsep := hdisj q j hq2 hq3 hj1 hj2 hq4 hjm hqj
        have hlt : j < q + max 1 (translateRegExpr pat w ws eol
            onigOptionDefault).1.length := by
          by_contra hge
          exact absurd hjm (by simp [hq5 j (by omega) hj2])
        omega

/-- C4, witness: the zero-match conjunct applied at the concrete instance of
pattern `zz` over buffer `ab` (forward range `[0, 2)`), which indeed holds no
match. -/
theorem c4_witness :
    (findText initInst ['a', 'b'] 0 2 (some ['z', 'z'])
        true false false 0 SC_EOL_LF).2 = (-1, 0) :=
  c4_search_semantics.2.2.1 initInst ['a', 'b'] 0 2 ['z', 'z']
    true false false 0 SC_EOL_LF (fun h hh => nomatch hh) (by decide)
    (by intro j h1 h2; norm_num at h2; interval_cases j <;> decide)

/-! ## Claim C7 -/

/-- C7: the backward scan loop.  For any engine search function that returns
hits at or after the requested lower bound: (1) the advanced lower bound
`matchStart + max 1 matchLength` is strictly greater than the previous lower
bound, even for zero-length matches; (2) with `result` not a hit the loop
exits reporting the recorded `last`; (3) likewise when the lower bound has
passed the upper bound; (4) with fuel covering `rangeEnd + 2 - b` the fueled
loop never exhausts its fuel -- i.e. the C++ `while` loop terminates, and
`findText`'s fuel `rangeEnd + 2` always suffices. -/
theorem c7_backScan_termination (search : Nat → Option (Nat × Nat)) (rEnd : Nat)
    (hprog : ∀ b p l, search b = some (p, l) → b ≤ p) :
    (∀ b p l, search b = some (p, l) → b < p + max 1 l)
  ∧ (∀ fuel b last, 1 ≤ fuel →
      backScanAux search rEnd fuel none b last = some last)
  ∧ (∀ fuel b p l last, 1 ≤ fuel → rEnd < b →
      backScanAux search rEnd fuel (some (p, l)) b last = some last)
  ∧ (∀ fuel b last, 1 ≤ fuel → rEnd + 2 ≤ fuel + b →
      backScanAux search rEnd fuel (search b) b last ≠ none) := by
  refine ⟨?_, ?_, ?_, ?_⟩
  · intro b p l h
    have := hprog b p l h
    have hm : 1 ≤ max 1 l := Nat.le_max_left 1 l
    omega
  · intro fuel b last h1
    cases fuel with
    | zero => omega
    | succ f => rfl
  · intro fuel b p l last h1 h2
    cases fuel with
    | zero => omega
    | succ f =>
      show (if b ≤ rEnd then _ else some last) = some last
      rw [if_neg (by omega)]
  · intro fuel
    induction fuel with
    | zero => intro b last h1 h2; omega
    | succ f ih =>
      intro b last h1 h2
      cases hres : search b with
      | none => simp [backScanAux]
      | some pl =>
        obtain ⟨p, l⟩ := pl
        have hbp := hprog b p l hres
        show (if b ≤ rEnd then backScanAux search rEnd f
            (search (p + max 1 l)) (p + max 1 l) (some (p, l))
          else some last) ≠ none
        by_cases hble : b ≤ rEnd
        · rw [if_pos hble]
          have hm : 1 ≤ max 1 l := Nat.le_max_left 1 l
          exact ih (p + max 1 l) (some (p, l)) (by omega) (by omega)
        · rw [if_neg hble]
          simp

/-- C7, witness: the termination theorem applied to `demoSearch`, which has a
zero-length hit at every offset up to 2; the loop advances 0, 1, 2, 3 and
reports the last hit `(2, 0)` rather than looping forever. -/
theorem c7_witness :
    backScanAux demoSearch 2 4 (demoSearch 0) 0 none = some (some (2, 0))
      ∧ backScanAux demoSearch 2 4 (demoSearch 0) 0 none ≠ none :=
  ⟨by decide,
   (c7_backScan_termination demoSearch 2
      (by
        intro b p l h
        by_cases hb : b ≤ 2
        · simp [demoSearch, hb] at h
          omega
        · simp [demoSearch, hb] at h)).2.2.2 4 0 none (by decide) (by decide)⟩

/-! ## Claim C5 -/

/-- C5: boundary-shorthand translation in an arbitrary backslash-free context
(word flags off, `SC_EOL_LF`).  An escaped shorthand `\\<` or `\\>` survives
translation literally (the expansion applied by the first pass is undone by
the escape-restoring pass), while the unescaped `\<` and `\>` become the
word-begin assertion `(?<!\w)(?=\w)` and the word-end assertion
`(?<=\w)(?!\w)` respectively. -/
theorem c5_escaped_boundary_roundtrip (a b : List Char)
    (ha : '\\' ∉ a) (hb : '\\' ∉ b) :
    (translateRegExpr (a ++ '\\' :: '\\' :: '<' :: b) false false SC_EOL_LF
          onigOptionDefault).1
        = a ++ '\\' :: '\\' :: '<' :: b
      ∧ (translateRegExpr (a ++ '\\' :: '\\' :: '>' :: b) false false SC_EOL_LF
          onigOptionDefault).1
        = a ++ '\\' :: '\\' :: '>' :: b
      ∧ (translateRegExpr (a ++ '\\' :: '<' :: b) false false SC_EOL_LF
          onigOptionDefault).1
        = a ++ wordBeginRepl ++ b
      ∧ (translateRegExpr (a ++ '\\' :: '>' :: b) false false SC_EOL_LF
          onigOptionDefault).1
        = a ++ wordEndRepl ++ b := by
  refine ⟨?_, ?_, ?_, ?_⟩
  · -- escaped word-begin shorthand: restored verbatim
    rw [translate_noWord_LF]
    rw [@replaceAll_escMatch2 ['(', '?', '<', '!', '\\', 'w', ')', '(', '?', '=', '\\', 'w', ')']
      '<' (by decide) a b ha hb]
    simp only [List.cons_append, List.nil_append]
    rw [show a ++ '\\' :: '(' :: '?' :: '<' :: '!' :: '\\' :: 'w' :: ')' :: '(' :: '?' :: '=' :: '\\' :: 'w' :: ')' :: b
        = a ++ (['\\', '(', '?', '<', '!', '\\', 'w', ')', '(', '?', '=', '\\', 'w', ')'] ++ b)
        from rfl]
    rw [← List.append_assoc]
    rw [@replaceAll_matchMid ['\\', '(', '?', '<', '!', '\\', 'w', ')', '(', '?', '=', '\\', 'w', ')']
      ['\\', '\\', '<'] '\\' rfl a b ha hb]
    simp only [List.append_assoc, List.cons_append, List.nil_append]
    rw [@replaceAll_skipEsc2 '>' []
      ['(', '?', '<', '=', '\\', 'w', ')', '(', '?', '!', '\\', 'w', ')'] '<'
      (by decide) (by decide) (by decide) a b ha hb]
    rw [@replaceAll_skipEsc2 '(' ['?', '<', '=', '\\', 'w', ')', '(', '?', '!', '\\', 'w', ')']
      ['\\', '\\', '>'] '<' (by decide) (by decide) (by decide) a b ha hb]
  · -- escaped word-end shorthand: restored verbatim
    rw [translate_noWord_LF]
    rw [@replaceAll_skipEsc2 '<' []
      ['(', '?', '<', '!', '\\', 'w', ')', '(', '?', '=', '\\', 'w', ')'] '>'
      (by decide) (by decide) (by decide) a b ha hb]
    rw [@replaceAll_skipEsc2 '(' ['?', '<', '!', '\\', 'w', ')', '(', '?', '=', '\\', 'w', ')']
      ['\\', '\\', '<'] '>' (by decide) (by decide) (by decide) a b ha hb]
    rw [@replaceAll_escMatch2 ['(', '?', '<', '=', '\\', 'w', ')', '(', '?', '!', '\\', 'w', ')']
      '>' (by decide) a b ha hb]
    simp only [List.cons_append, List.nil_append]
    rw [show a ++ '\\' :: '(' :: '?' :: '<' :: '=' :: '\\' :: 'w' :: ')' :: '(' :: '?' :: '!' :: '\\' :: 'w' :: ')' :: b
        = a ++ (['\\', '(', '?', '<', '=', '\\', 'w', ')', '(', '?', '!', '\\', 'w', ')'] ++ b)
        from rfl]
    rw [← List.append_assoc]
    rw [@replaceAll_matchMid ['\\', '(', '?', '<', '=', '\\', 'w', ')', '(', '?', '!', '\\', 'w', ')']
      ['\\', '\\', '>'] '\\' rfl a b ha hb]
    simp only [List.append_assoc, List.cons_append, List.nil_append]
  · -- unescaped word-begin shorthand: expanded, and the expansion survives
    rw [translate_noWord_LF]
    rw [show a ++ '\\' :: '<' :: b = a ++ (['\\', '<'] ++ b) from rfl]
    rw [← List.append_assoc]
    rw [@replaceAll_matchMid ['\\', '<']
      ['(', '?', '<', '!', '\\', 'w', ')', '(', '?', '=', '\\', 'w', ')'] '\\' rfl a b ha hb]
    simp only [List.append_assoc, List.cons_append, List.nil_append]
    rw [@replaceAllAux_append_left
      ['\\', '(', '?', '<', '!', '\\', 'w', ')', '(', '?', '=', '\\', 'w', ')']
      ['\\', '\\', '<'] '\\' rfl a
      ('(' :: '?' :: '<' :: '!' :: '\\' :: 'w' :: ')' :: '(' :: '?' :: '=' :: '\\' :: 'w' :: ')' :: b) ha]
    rw [@replaceAll_skip_wbr '(' ['?', '<', '!', '\\', 'w', ')', '(', '?', '=', '\\', 'w', ')']
      ['\\', '\\', '<'] (by decide) b hb]
    rw [@replaceAllAux_append_left ['\\', '>']
      ['(', '?', '<', '=', '\\', 'w', ')', '(', '?', '!', '\\', 'w', ')'] '\\' rfl a
      ('(' :: '?' :: '<' :: '!' :: '\\' :: 'w' :: ')' :: '(' :: '?' :: '=' :: '\\' :: 'w' :: ')' :: b) ha]
    rw [@replaceAll_skip_wbr '>' []
      ['(', '?', '<', '=', '\\', 'w', ')', '(', '?', '!', '\\', 'w', ')'] (by decide) b hb]
    rw [@replaceAllAux_append_left
      ['\\', '(', '?', '<', '=', '\\', 'w', ')', '(', '?', '!', '\\', 'w', ')']
      ['\\', '\\', '>'] '\\' rfl a
      ('(' :: '?' :: '<' :: '!' :: '\\' :: 'w' :: ')' :: '(' :: '?' :: '=' :: '\\' :: 'w' :: ')' :: b) ha]
    rw [@replaceAll_skip_wbr '(' ['?', '<', '=', '\\', 'w', ')', '(', '?', '!', '\\', 'w', ')']
      ['\\', '\\', '>'] (by decide) b hb]
    rfl
  · -- unescaped word-end shorthand: expanded, and the expansion survives
    rw [translate_noWord_LF]
    rw [@replaceAll_skipEsc1 '<' []
      ['(', '?', '<', '!', '\\', 'w', ')', '(', '?', '=', '\\', 'w', ')'] '>'
      (by decide) (by decide) a b ha hb]
    rw [@replaceAll_skipEsc1 '(' ['?', '<', '!', '\\', 'w', ')', '(', '?', '=', '\\', 'w', ')']
      ['\\', '\\', '<'] '>' (by decide) (by decide) a b ha hb]
    rw [show a ++ '\\' :: '>' :: b = a ++ (['\\', '>'] ++ b) from rfl]
    rw [← List.append_assoc]
    rw [@replaceAll_matchMid ['\\', '>']
      ['(', '?', '<', '=', '\\', 'w', ')', '(', '?', '!', '\\', 'w', ')'] '\\' rfl a b ha hb]
    simp only [List.append_assoc, List.cons_append, List.nil_append]
    rw [@replaceAllAux_append_left
      ['\\', '(', '?', '<', '=', '\\', 'w', ')', '(', '?', '!', '\\', 'w', ')']
      ['\\', '\\', '>'] '\\' rfl a
      ('(' :: '?' :: '<' :: '=' :: '\\' :: 'w' :: ')' :: '(' :: '?' :: '!' :: '\\' :: 'w' :: ')' :: b) ha]
    rw [@replaceAll_skip_wer '(' ['?', '<', '=', '\\', 'w', ')', '(', '?', '!', '\\', 'w', ')']
      ['\\', '\\', '>'] (by decide) b hb]
    rfl

/-- C5, witness: the round-trip theorem applied in the concrete context
`a = "x"`, `b = "y"`. -/
theorem c5_witness :
    (translateRegExpr ('x' :: '\\' :: '\\' :: '<' :: ['y']) false false SC_EOL_LF
        onigOptionDefault).1
      = 'x' :: '\\' :: '\\' :: '<' :: ['y'] :=
  (c5_escaped_boundary_roundtrip ['x'] ['y'] (by decide) (by decide)).1

/-! ## Claim C6 -/

/-- C6: end-of-line mode handling.  For `SC_EOL_LF` and `SC_EOL_CR` the
engine's CRLF-newline option is cleared, for `SC_EOL_CRLF` it is set and the
pattern text is exactly the text the `SC_EOL_LF` mode produces (no EOL text
change).  In `SC_EOL_CR` mode, in an arbitrary backslash- and dollar-free
context, an unescaped `$` is rewritten to the carriage-return lookahead
`(?=\r)` while an escaped `\$` is left untouched. -/
theorem c6_eol_modes (p : List Char) (w ws : Bool) (o : OnigOptions)
    (a b : List Char) (ha1 : '\\' ∉ a) (ha2 : '$' ∉ a)
    (hb1 : '\\' ∉ b) (hb2 : '$' ∉ b) :
    (translateRegExpr p w ws SC_EOL_LF o).2.newlineCrlf = false
      ∧ (translateRegExpr p w ws SC_EOL_CR o).2.newlineCrlf = false
      ∧ (translateRegExpr p w ws SC_EOL_CRLF o).2.newlineCrlf = true
      ∧ (translateRegExpr p w ws SC_EOL_CRLF o).1
          = (translateRegExpr p w ws SC_EOL_LF o).1
      ∧ (translateRegExpr (a ++ '$' :: b) false false SC_EOL_CR o).1
          = a ++ crLookahead ++ b
      ∧ (translateRegExpr (a ++ '\\' :: '$' :: b) false false SC_EOL_CR o).1
          = a ++ '\\' :: '$' :: b := by
  have hnb : '\\' ∉ a ++ '$' :: b := by
    intro h
    rcases List.mem_append.mp h with h | h
    · exact ha1 h
    · rcases List.mem_cons.mp h with h | h
      · exact absurd h (by decide)
      · exact hb1 h
  refine ⟨?_, ?_, ?_, ?_, ?_, ?_⟩
  · simp [translateRegExpr]
  · simp [translateRegExpr, SC_EOL_CR, SC_EOL_LF]
  · simp [translateRegExpr, SC_EOL_CRLF, SC_EOL_CR, SC_EOL_LF]
  · simp [translateRegExpr, SC_EOL_CRLF, SC_EOL_CR, SC_EOL_LF]
  · -- unescaped $ becomes the carriage-return lookahead
    rw [translate_noWord_CR]
    rw [@replaceAll_eq_self_of_head_not_mem ['\\', '<']
      ['(', '?', '<', '!', '\\', 'w', ')', '(', '?', '=', '\\', 'w', ')'] '\\' rfl
      (a ++ '$' :: b) hnb]
    rw [@replaceAll_eq_self_of_head_not_mem
      ['\\', '(', '?', '<', '!', '\\', 'w', ')', '(', '?', '=', '\\', 'w', ')']
      ['\\', '\\', '<'] '\\' rfl (a ++ '$' :: b) hnb]
    rw [@replaceAll_eq_self_of_head_not_mem ['\\', '>']
      ['(', '?', '<', '=', '\\', 'w', ')', '(', '?', '!', '\\', 'w', ')'] '\\' rfl
      (a ++ '$' :: b) hnb]
    rw [@replaceAll_eq_self_of_head_not_mem
      ['\\', '(', '?', '<', '=', '\\', 'w', ')', '(', '?', '!', '\\', 'w', ')']
      ['\\', '\\', '>'] '\\' rfl (a ++ '$' :: b) hnb]
    rw [show a ++ '$' :: b = a ++ (['$'] ++ b) from rfl]
    rw [← List.append_assoc]
    rw [@replaceAll_matchMid ['$'] ['(', '?', '=', '\\', 'r', ')'] '$' rfl a b ha2 hb2]
    simp only [List.append_assoc, List.cons_append, List.nil_append]
    rw [@replaceAllAux_append_left ['\\', '(', '?', '=', '\\', 'r', ')'] ['\\', '$'] '\\'
      rfl a ('(' :: '?' :: '=' :: '\\' :: 'r' :: ')' :: b) ha1]
    rw [@replaceAll_skip_crl '(' ['?', '=', '\\', 'r', ')'] ['\\', '$'] (by decide) b hb1]
    rfl
  · -- escaped \$ is left untouched
    rw [translate_noWord_CR]
    rw [@replaceAll_skipEsc1 '<' []
      ['(', '?', '<', '!', '\\', 'w', ')', '(', '?', '=', '\\', 'w', ')'] '$'
      (by decide) (by decide) a b ha1 hb1]
    rw [@replaceAll_skipEsc1 '(' ['?', '<', '!', '\\', 'w', ')', '(', '?', '=', '\\', 'w', ')']
      ['\\', '\\', '<'] '$' (by decide) (by decide) a b ha1 hb1]
    rw [@replaceAll_skipEsc1 '>' []
      ['(', '?', '<', '=', '\\', 'w', ')', '(', '?', '!', '\\', 'w', ')'] '$'
      (by decide) (by decide) a b ha1 hb1]
    rw [@replaceAll_skipEsc1 '(' ['?', '<', '=', '\\', 'w', ')', '(', '?', '!', '\\', 'w', ')']
      ['\\', '\\', '>'] '$' (by decide) (by decide) a b ha1 hb1]
    rw [@replaceAll_escMatch1 ['(', '?', '=', '\\', 'r', ')'] '$' (by decide) a b ha2 hb2]
    simp only [List.cons_append, List.nil_append]
    rw [show a ++ '\\' :: '(' :: '?' :: '=' :: '\\' :: 'r' :: ')' :: b
        = a ++ (['\\', '(', '?', '=', '\\', 'r', ')'] ++ b) from rfl]
    rw [← List.append_assoc]
    rw [@replaceAll_matchMid ['\\', '(', '?', '=', '\\', 'r', ')'] ['\\', '$'] '\\' rfl
      a b ha1 hb1]
    simp only [List.append_assoc, List.cons_append, List.nil_append]

/-- C6, witness: the EOL theorem applied at the concrete pattern `"z"` and
context `a = "x"`, `b = "y"`; the unescaped-`$` conjunct in that context. -/
theorem c6_witness :
    (translateRegExpr ('x' :: '$' :: ['y']) false false SC_EOL_CR
        onigOptionDefault).1
      = ['x'] ++ crLookahead ++ ['y'] :=
  (c6_eol_modes ['z'] false false onigOptionDefault ['x'] ['y']
    (by decide) (by decide) (by decide) (by decide)).2.2.2.2.1

/-! ## Claim C3 -/

/-- C3, counterexample: with `wholeWord = true` the translator replaces every
`'.'` of the pattern, not only literal dots outside character classes: the
class `[.]` becomes `[\w]` and the escaped dot `\.` becomes `\\w`, while the
claim says both dots should be left unchanged. -/
theorem c3_counterexample :
    (translateRegExpr "[.]".toList true false SC_EOL_LF onigOptionDefault).1
        = "\\b[\\w]\\b".toList
      ∧ (translateRegExpr "\\.".toList true false SC_EOL_LF onigOptionDefault).1
        = "\\b\\\\w\\b".toList
      ∧ "\\b[\\w]\\b".toList ≠ "\\b[.]\\b".toList := by
  decide

/-- C3 (amended): every pattern translated with `wholeWord = true` yields
engine text that begins and ends with the `\b` word-boundary assertion, and
every `'.'` of the original pattern -- including dots inside character classes
and escaped dots -- is replaced by the `\w` word-character class, so the
engine text contains no `'.'` at all. -/
theorem c3_wholeWord_translation (p : List Char) (wordStart : Bool)
    (eolMode : Nat) (o : OnigOptions) :
    bWrapped (translateRegExpr p true wordStart eolMode o).1
      ∧ '.' ∉ (translateRegExpr p true wordStart eolMode o).1 := by
  have h0 : bWrapped (replaceAll (['\\', 'b'] ++ p ++ ['\\', 'b']) ['.'] ['\\', 'w'])
      ∧ '.' ∉ replaceAll (['\\', 'b'] ++ p ++ ['\\', 'b']) ['.'] ['\\', 'w'] :=
    ⟨passKeepsBounds (f := ['.']) ['\\', 'w'] (by decide) (by decide) (by decide) p,
     not_mem_replaceAll_single (by decide) _⟩
  have h1 := passStep (f := ['\\', '<']) (t := wordBeginRepl)
    (by decide) (by decide) (by decide) (by decide) h0.1 h0.2
  have h2 := passStep (f := escWordBegin) (t := ('\\' :: '\\' :: '<' :: []))
    (by decide) (by decide) (by decide) (by decide) h1.1 h1.2
  have h3 := passStep (f := ['\\', '>']) (t := wordEndRepl)
    (by decide) (by decide) (by decide) (by decide) h2.1 h2.2
  have h4 := passStep (f := escWordEnd) (t := ('\\' :: '\\' :: '>' :: []))
    (by decide) (by decide) (by decide) (by decide) h3.1 h3.2
  by_cases hLF : eolMode = SC_EOL_LF
  · simpa only [translateRegExpr, Bool.true_or, if_true, hLF, if_pos] using h4
  · by_cases hCR : eolMode = SC_EOL_CR
    · have h5 := passStep (f := ['$']) (t := crLookahead)
        (by decide) (by decide) (by decide) (by decide) h4.1 h4.2
      have h6 := passStep (f := escCrLookahead) (t := ['\\', '$'])
        (by decide) (by decide) (by decide) (by decide) h5.1 h5.2
      simpa only [translateRegExpr, Bool.true_or, if_true, hLF, hCR, if_pos,
        if_neg, if_false] using h6
    · by_cases hCRLF : eolMode = SC_EOL_CRLF
      · simpa only [translateRegExpr, Bool.true_or, if_true, hLF, hCR, hCRLF,
          if_pos, if_neg, if_false] using h4
      · simpa only [translateRegExpr, Bool.true_or, if_true, hLF, hCR, hCRLF,
          if_pos, if_neg, if_false] using h4

/-! ## Claim C10 -/

/-- C10: `FindText` with a null or empty pattern returns `-1` with output
length `0` and leaves the whole instance state -- cached pattern, options,
stored match and region -- unchanged, so a subsequent `SubstituteByPosition`
still operates on the earlier match. -/
theorem c10_empty_pattern_noop (st : RegexInst) (doc doc2 text : List Char)
    (minPos maxPos : Nat) (cs w ws : Bool) (fl eol : Nat) :
    findText st doc minPos maxPos none cs w ws fl eol = (st, -1, 0)
      ∧ findText st doc minPos maxPos (some []) cs w ws fl eol = (st, -1, 0)
      ∧ substituteByPosition
            (findText st doc minPos maxPos (some []) cs w ws fl eol).1 doc2 text
          = substituteByPosition st doc2 text :=
  ⟨rfl, rfl, rfl⟩

/-! ## Claim C8 -/

/-- C8, counterexample: a Find call with an empty pattern returns the no-match
value `-1` yet does not reset the stored match, so a subsequent Substitute
still succeeds: after a successful Find (`foo` at offset 3 in `xx foo`), an
empty-pattern Find reports `(-1, 0)`, and Substitute with template `$0` then
returns `foo` (length 3) instead of the claimed no-active-match failure. -/
theorem c8_counterexample :
    (findText initInst "xx foo".toList 0 6 (some "foo".toList)
        true false false 0 SC_EOL_LF).2 = (3, 3)
      ∧ (findText (findText initInst "xx foo".toList 0 6 (some "foo".toList)
            true false false 0 SC_EOL_LF).1 "xx foo".toList 0 6 (some [])
            true false false 0 SC_EOL_LF).2 = (-1, 0)
      ∧ substituteByPosition
            (findText (findText initInst "xx foo".toList 0 6 (some "foo".toList)
                true false false 0 SC_EOL_LF).1 "xx foo".toList 0 6 (some [])
                true false false 0 SC_EOL_LF).1
            "xx foo".toList "$0".toList
          = (some "foo".toList, 3) := by
  decide

/-- On a nonempty pattern, `findText` stores the returned value in
`m_MatchPos` (the stored offset and the return value agree). -/
theorem findText_matchPos_eq (st : RegexInst) (doc : List Char)
    (minPos maxPos : Nat) (pat : List Char) (cs w ws : Bool) (fl eol : Nat)
    (hpat : pat ≠ []) :
    (findText st doc minPos maxPos (some pat) cs w ws fl eol).1.matchPos
      = (findText st doc minPos maxPos (some pat) cs w ws fl eol).2.1 := by
  have hlen : ¬ pat.length = 0 := by simpa [List.length_eq_zero] using hpat
  simp only [findText, hlen, if_false]

/-- C8 (amended): `SubstituteByPosition` fails with the no-active-match
result (null pointer, `*length = -1`) on a fresh instance with no prior Find,
and after any Find call with a nonempty pattern that reported no match
(returned `-1`), because such a call resets the stored match offset to the
mismatch sentinel.  (A null/empty-pattern Find also returns `-1` but leaves
the stored match intact -- claim C10 and `c8_counterexample`.) -/
theorem c8_no_active_match :
    (∀ doc text, substituteByPosition initInst doc text = (none, -1))
      ∧ (∀ (st : RegexInst) (doc doc2 text : List Char) (minPos maxPos : Nat)
            (pat : List Char) (cs w ws : Bool) (fl eol : Nat),
          pat ≠ [] →
          (findText st doc minPos maxPos (some pat) cs w ws fl eol).2.1 = -1 →
          substituteByPosition
              (findText st doc minPos maxPos (some pat) cs w ws fl eol).1
              doc2 text
            = (none, -1)) := by
  constructor
  · intro doc text
    rfl
  · intro st doc doc2 text minPos maxPos pat cs w ws fl eol hpat hret
    have hmp := findText_matchPos_eq st doc minPos maxPos pat cs w ws fl eol hpat
    rw [hret] at hmp
    simp [substituteByPosition, hmp]

/-- C8, witness: a Find for `zz` in `ab` finds nothing (and resets the stored
match), so the following Substitute reports no active match. -/
theorem c8_witness :
    substituteByPosition (findText initInst ['a', 'b'] 0 2 (some ['z', 'z'])
        true false false 0 SC_EOL_LF).1 ['a', 'b'] ['x'] = (none, -1) :=
  c8_no_active_match.2 initInst ['a', 'b'] ['a', 'b'] ['x'] 0 2 ['z', 'z']
    true false false 0 SC_EOL_LF (by decide) (by decide)

/-! ## Claim C9 -/

/-- C9: an out-of-range backreference token (`$` or `\` followed by a decimal
digit whose value is at least the group count) emits nothing, but both
characters of the token are consumed; and a substitution with an active match
always succeeds, returning a (possibly empty) buffer and its length. -/
theorem c9_out_of_range_backref :
    (∀ (doc : List Char) (region : OnigRegion) (c d : Char) (rest : List Char),
        (c = '$' ∨ c = '\\') → '0' ≤ d → d ≤ '9' →
        region.regs.length ≤ d.toNat - '0'.toNat →
        substWalk doc region (c :: d :: rest) = substWalk doc region rest)
      ∧ (∀ (st : RegexInst) (doc text : List Char), 0 ≤ st.matchPos →
          ∃ out, substituteByPosition st doc text
            = (some out, (out.length : Int))) := by
  constructor
  · intro doc region c d rest hc h0 h9 hlen
    show (if c = '$' ∨ c = '\\' then _ else _) = _
    rw [if_pos hc, if_pos ⟨h0, h9⟩]
    have hlt : ¬ (d.toNat - '0'.toNat < region.regs.length) := by omega
    simp only [dif_neg hlt, List.nil_append]
  · intro st doc text h
    refine ⟨substWalk doc st.region (convertReplExpr text), ?_⟩
    unfold substituteByPosition
    rw [if_neg (by omega)]

/-- C9, witness: the token `$7` with an empty region table emits nothing and
is consumed whole, and a substitution with an active match at offset 0
succeeds. -/
theorem c9_witness :
    substWalk ['a', 'b'] ⟨[]⟩ ('$' :: '7' :: ['x'])
        = substWalk ['a', 'b'] ⟨[]⟩ ['x']
      ∧ ∃ out, substituteByPosition
          { regExprStrg := [], cmplOptions := onigOptionDefault, regExpr := none,
            region := ⟨[]⟩, errorInfo := [], matchPos := 0, matchLen := 0 }
          ['a', 'b'] ['x'] = (some out, (out.length : Int)) :=
  ⟨c9_out_of_range_backref.1 ['a', 'b'] ⟨[]⟩ '$' '7' ['x'] (Or.inl rfl)
      (by decide) (by decide) (by decide),
   c9_out_of_range_backref.2
      { regExprStrg := [], cmplOptions := onigOptionDefault, regExpr := none,
        region := ⟨[]⟩, errorInfo := [], matchPos := 0, matchLen := 0 }
      ['a', 'b'] ['x'] (by decide)⟩

/-! ## Claim C2 -/

/-- C2: a replacement template ending in a lone backslash.  The loop reads
`replStr[++i]`, i.e. the string's null terminator, falls into the `default`
switch case and pushes that NUL byte: the dangling escape contributes a
`0x00` byte to the output rather than nothing, so the expansion differs from
the expansion of the template without the trailing backslash. -/
theorem c2_dangling_escape :
    convertReplExpr ['a', 'b', '\\'] = ['a', 'b', Char.ofNat 0]
      ∧ convertReplExpr ['a', 'b'] = ['a', 'b']
      ∧ convertReplExpr ['a', 'b', '\\'] ≠ convertReplExpr ['a', 'b'] := by
  decide

/-! ## Claim C1 -/

/-- C1, counterexample: when recompilation is triggered and the engine
compiler fails, the cached pattern text and options HAVE been overwritten
with the failing request's values before the compile was attempted (lines
252-254 run unconditionally), refuting "without mutating the cached pattern
text and cached options". -/
theorem c1_counterexample :
    (recompileStep failCompiler c1State ['('] onigOptionDefault).2 = some (-2)
      ∧ (recompileStep failCompiler c1State ['('] onigOptionDefault).1.regExprStrg
          ≠ c1State.regExprStrg
      ∧ (recompileStep failCompiler c1State ['('] onigOptionDefault).1.regExprStrg
          = ['(']
      ∧ (recompileStep failCompiler c1State ['('] onigOptionDefault).1.errorInfo
          = ['b', 'a', 'd'] := by
  decide

/-- C1 (amended): when recompilation is triggered and the engine compiler
fails, the operation reports `-2` (InvalidPattern) and stores the engine's
diagnostic message; the cached pattern text and options ARE overwritten with
the new request's values, but the compiled-handle slot is left null, so a
subsequent FindText call with the identical pattern and options triggers
recompilation again (and fails identically) rather than reusing a failed
state. -/
theorem c1_compile_failure
    (compile : List Char → OnigOptions → Except (List Char) (List Char))
    (st : CacheView) (s : List Char) (o : OnigOptions) (msg : List Char)
    (hre : needsRecompile st s o) (hc : compile s o = .error msg) :
    (recompileStep compile st s o).2 = some (-2)
      ∧ (recompileStep compile st s o).1.errorInfo = msg
      ∧ (recompileStep compile st s o).1.regExpr = none
      ∧ (recompileStep compile st s o).1.regExprStrg = s
      ∧ (recompileStep compile st s o).1.cmplOptions = o
      ∧ needsRecompile (recompileStep compile st s o).1 s o
      ∧ (recompileStep compile (recompileStep compile st s o).1 s o).2
          = some (-2) := by
  have hstep : recompileStep compile st s o
      = ({ st with regExprStrg := s, cmplOptions := o, errorInfo := msg,
                   region := ⟨[]⟩, regExpr := none }, some (-2)) := by
    simp only [recompileStep, hc]
    rw [if_pos hre]
  rw [hstep]
  refine ⟨rfl, rfl, rfl, rfl, rfl, Or.inl rfl, ?_⟩
  simp only [recompileStep, hc]
  rw [if_pos (show needsRecompile
      { regExprStrg := s, cmplOptions := o, regExpr := none, errorInfo := msg,
        region := ⟨[]⟩ } s o from Or.inl rfl)]

/-- C1, witness: the failure theorem applied to the concrete rejecting
compiler, the cached-`a` state and the bad pattern `(`. -/
theorem c1_witness :
    (recompileStep failCompiler c1State ['('] onigOptionDefault).2 = some (-2)
      ∧ (recompileStep failCompiler c1State ['('] onigOptionDefault).1.errorInfo
          = ['b', 'a', 'd'] :=
  ⟨(c1_compile_failure failCompiler c1State ['('] onigOptionDefault ['b', 'a', 'd']
      (by decide) rfl).1,
   (c1_compile_failure failCompiler c1State ['('] onigOptionDefault ['b', 'a', 'd']
      (by decide) rfl).2.1⟩
